import Mathlib

/-
  Verification of the multipart form-data decoder of the oak framework
  (src/multipart.ts).  The decoder is embedded shallowly: the line-oriented
  buffered reader is modelled as a list of raw lines (each line a list of
  byte values, end-of-line bytes included), the file system as an explicit
  store of created files, and the asynchronous generator of parts as a
  recursive function returning the yielded parts together with an optional
  terminal error.
-/

namespace Oak

/-- Raw bytes, modelling Uint8Array values as lists of natural numbers. -/
abbrev Bytes := List Nat

/-- Modelled from the spec: TextDecoder.decode under an ASCII byte model of
JS strings (each byte becomes the character with that code point). -/
def decodeBytes (b : Bytes) : String := String.mk (b.map Char.ofNat)

/-- Modelled from the spec: TextEncoder.encode under the ASCII byte model. -/
def encodeStr (s : String) : Bytes := s.data.map Char.toNat

/-- Modelled from the spec (util.ts is not among the sources): strip one
trailing end-of-line sequence from a line: a final line feed byte is
dropped, together with a carriage return immediately before it. -/
def stripEol (b : Bytes) : Bytes :=
  if b.getLast? = some 10 then
    if b.dropLast.getLast? = some 13 then b.dropLast.dropLast else b.dropLast
  else b

/-- Modelled from the spec (util.ts is not among the sources): skip leading
linear whitespace (space and horizontal tab) of a candidate boundary line. -/
def skipLWSPChar (b : Bytes) : Bytes := b.dropWhile (fun c => c == 32 || c == 9)

/-- multipart.ts isEqual: compare a candidate line, after skipping its leading
linear whitespace, byte for byte against a boundary token. -/
def isEqual (a b : Bytes) : Bool := skipLWSPChar a == b

/-- A byte is linear whitespace in the sense of String.trim. -/
def isWsByte (c : Nat) : Bool := c == 32 || c == 9 || c == 10 || c == 13

/-- Modelled from the spec: String.trim of JS under the ASCII byte model. -/
def trimB (b : Bytes) : Bytes :=
  ((b.dropWhile isWsByte).reverse.dropWhile isWsByte).reverse

/-- Modelled from the spec: String.toLowerCase of JS under the ASCII byte
model (only the 26 ASCII uppercase letters are mapped). -/
def toLowerB (b : Bytes) : Bytes :=
  b.map (fun c => if 65 ≤ c ∧ c ≤ 90 then c + 32 else c)

/-- Split a byte list on a separator byte; the separator is dropped and the
result always has at least one (possibly empty) segment. -/
def splitOnByte (sep : Nat) : Bytes → List Bytes
  | [] => [[]]
  | c :: rest =>
    if c = sep then [] :: splitOnByte sep rest
    else
      match splitOnByte sep rest with
      | [] => [[c]]
      | l :: ls => (c :: l) :: ls

/-- Modelled from the spec (headers.ts is not among the sources): extraction
of a parameter value, quoted or bare, from a structured header value, as done
by the toParamRegExp regular expressions of the source: the parameter must
start a semicolon-separated segment, the parameter name is matched case
insensitively, and the raw (still quoted) value is returned. -/
def paramValue (key : Bytes) (s : Bytes) : Option Bytes :=
  (splitOnByte 59 s).findSome? fun seg =>
    match splitOnByte 61 seg with
    | [] => none
    | [_] => none
    | k :: vs =>
      if toLowerB (trimB k) == key then some (trimB (List.intercalate [61] vs))
      else none

/-- Modelled from the spec (headers.ts is not among the sources): collapse
every backslash-escaped character to the character itself, as the unquoting
of a quoted parameter value does. -/
def unescapeB : Bytes → Bytes
  | [] => []
  | c :: rest =>
    if c = 92 then
      match rest with
      | [] => [92]
      | d :: rest2 => d :: unescapeB rest2
    else c :: unescapeB rest

/-- Modelled from the spec (headers.ts is not among the sources): remove one
pair of surrounding double quotes and collapse the backslash-escaped
characters of the quoted value; an unquoted value is returned unchanged. -/
def unquoteB (b : Bytes) : Bytes :=
  match b with
  | 34 :: rest =>
    if rest.getLast? == some 34 then unescapeB rest.dropLast else 34 :: rest
  | _ => b

/-- Modelled from the spec (content_disposition.ts is not among the sources):
extract the filename parameter of a content-disposition header value. -/
def getFilename (cd : Bytes) : Option Bytes :=
  (paramValue (encodeStr "filename") cd).map unquoteB

/-- The failures the decoder can raise.  badRequest and
requestEntityTooLarge model the corresponding httpErrors classes,
permissionDenied models Deno.errors.PermissionDenied raised by storage
operations, and alreadyReading models the plain Error thrown by the
single-use guard. -/
inductive Err where
  | badRequest (msg : String)
  | requestEntityTooLarge (msg : String)
  | permissionDenied
  | alreadyReading
deriving DecidableEq, Repr

/-- Equality of Except values is decidable when it is on both sides. -/
instance {ε α : Type} [DecidableEq ε] [DecidableEq α] : DecidableEq (Except ε α) :=
  fun x y =>
    match x, y with
    | .error a, .error b =>
      if h : a = b then .isTrue (by rw [h])
      else .isFalse (fun hc => by cases hc; exact h rfl)
    | .ok a, .ok b =>
      if h : a = b then .isTrue (by rw [h])
      else .isFalse (fun hc => by cases hc; exact h rfl)
    | .error a, .ok b => .isFalse (fun hc => by cases hc)
    | .ok a, .error b => .isFalse (fun hc => by cases hc)

/-- multipart.ts FormDataFile. -/
structure FormDataFile where
  content : Option Bytes
  contentType : String
  filename : Option String
  name : String
  originalName : Option String
deriving DecidableEq, Repr

/-- The second component of a yielded part: a decoded text field or a file. -/
inductive PartValue where
  | field (value : String)
  | file (f : FormDataFile)
deriving DecidableEq, Repr

/-- A file created in storage: its path, its bytes, and whether the handle
returned by Deno.open is still open. -/
structure DiskFile where
  path : String
  content : Bytes
  isOpen : Bool
deriving DecidableEq, Repr

/-- The storage state: the files created so far, addressed by their index,
which stands in for the file handle. -/
structure FileSys where
  files : List DiskFile
deriving DecidableEq, Repr

/-- Create a new empty open file, returning its handle. -/
def FileSys.create (fs : FileSys) (path : String) : Nat × FileSys :=
  (fs.files.length, ⟨fs.files ++ [⟨path, [], true⟩]⟩)

/-- Deno.writeAll on a handle: append bytes to the addressed file. -/
def FileSys.writeAll (fs : FileSys) (h : Nat) (b : Bytes) : FileSys :=
  match fs.files[h]? with
  | some f => ⟨fs.files.set h { f with content := f.content ++ b }⟩
  | none => fs

/-- file.close on a handle: mark the addressed file closed. -/
def FileSys.close (fs : FileSys) (h : Nat) : FileSys :=
  match fs.files[h]? with
  | some f => ⟨fs.files.set h { f with isOpen := false }⟩
  | none => fs

/-- Every created file has been closed again. -/
abbrev FileSys.allClosed (fs : FileSys) : Prop :=
  ∀ f ∈ fs.files, f.isOpen = false

/-- The ambient platform: how a file extension is derived from a media type
(the extension function of the dependencies), whether storage operations
fail with a permission error, and the directory Deno.makeTempDir yields. -/
structure Env where
  ext : String → Option String
  permissionDenied : Bool
  tempDir : String

/-- multipart.ts default buffer size (1mb). -/
def DEFAULT_BUFFER_SIZE : Nat := 1048576

/-- multipart.ts default maximum file size (10mb). -/
def DEFAULT_MAX_FILE_SIZE : Nat := 10485760

/-- multipart.ts default in-memory ceiling (0: all files written to disc). -/
def DEFAULT_MAX_SIZE : Nat := 0

/-- Modelled from the spec (util.ts is not among the sources): the random
file name, with the randomness replaced by a fresh counter value. -/
def getRandomFilename (pre : Option String) (ext : String) (id : Nat) : String :=
  pre.getD "" ++ Nat.repr id ++ "." ++ ext

/-- Insert or overwrite a key in an association list, as assignment into a
JS record does: an existing key keeps its position, a new key is appended. -/
def setAssoc {α β : Type} [BEq α] : List (α × β) → α → β → List (α × β)
  | [], k, v => [(k, v)]
  | (k0, v0) :: rest, k, v =>
    if k0 == k then (k0, v) :: rest else (k0, v0) :: setAssoc rest k v

/-- Look a key up in an association list. -/
def getAssoc {α β : Type} [BEq α] (l : List (α × β)) (k : α) : Option β :=
  (l.find? (fun p => p.1 == k)).map (fun p => p.2)

/-- Modelled from the spec (headers.ts is not among the sources): parse one
header line at its first colon into a lowercased trimmed key and a trimmed
value. -/
def parseHeaderLine (line : Bytes) : Option (Bytes × Bytes) :=
  let k := line.takeWhile (fun c => decide (c ≠ 58))
  if k.length = line.length then none
  else some (toLowerB (trimB k), trimB (line.drop (k.length + 1)))

/-- Modelled from the spec (headers.ts is not among the sources): consume
lines up to a blank line and build the case-insensitive header mapping;
running out of lines or a line without a colon is a bad request. -/
def readHeadersAux :
    List Bytes → List (Bytes × Bytes) → Except Err (List (Bytes × Bytes) × List Bytes)
  | [], _ => .error (.badRequest "Unexpected end of body reached.")
  | line :: rest, acc =>
    let l := stripEol line
    if l.isEmpty then .ok (acc, rest)
    else
      match parseHeaderLine l with
      | none => .error (.badRequest "Malformed header line.")
      | some kv => readHeadersAux rest (setAssoc acc kv.1 kv.2)

/-- readHeaders of the source: parse a header block from the line source. -/
def readHeaders (input : List Bytes) :
    Except Err (List (Bytes × Bytes) × List Bytes) :=
  readHeadersAux input []

/-- JS truthiness of an optional string-as-bytes header value: present and
not the empty string. -/
def jsTruthy : Option Bytes → Bool
  | none => false
  | some b => !b.isEmpty

/-- The options record destructured at the top of the parts generator of
multipart.ts; the line source itself is passed separately.  The prefix
option of the source is called pre here. -/
structure PartsOptions where
  final : Bytes
  part : Bytes
  maxFileSize : Nat
  maxSize : Nat
  outPath : Option String
  pre : Option String
deriving Repr

/-- The state threaded through the parts generator: the storage state and
the current output path (the outPath variable of the source, which getFile
may initialize to a fresh temporary directory). -/
structure MState where
  fs : FileSys
  outPath : Option String
deriving DecidableEq, Repr

/-- getFile of the parts generator: derive an extension from the media type
(bad request when none can be derived), make sure an output directory
exists, and create a uniquely named file.  Storage permission failures of
Deno.makeTempDir and Deno.open are modelled by the permissionDenied flag of
the environment.  Returns the file path, its handle, the new storage state
and the (possibly just created) output path. -/
def getFile (env : Env) (pre : Option String) (st : MState) (contentType : String) :
    Except Err (String × Nat × MState) :=
  match env.ext contentType with
  | none => .error (.badRequest "Invalid media type for part")
  | some e =>
    if env.permissionDenied then .error .permissionDenied
    else
      let op := st.outPath.getD env.tempDir
      let filename := op ++ "/" ++ getRandomFilename pre e st.fs.files.length
      let hfs := st.fs.create filename
      .ok (filename, hfs.1, ⟨hfs.2, some op⟩)

/-- Outcome of reading the lines of one part up to a boundary line: continue
with the next part after a part boundary, stop after the final boundary, or
fail. -/
inductive LoopOut where
  | more (y : String × PartValue) (rest : List Bytes) (st : MState)
  | last (y : String × PartValue) (rest : List Bytes) (st : MState)
  | fail (e : Err) (st : MState)
deriving DecidableEq, Repr

/-- The inner line loop of the file branch of the parts generator
(multipart.ts lines 176 to 225): read raw lines (end-of-line preserved)
until a boundary line is found, counting every raw byte, failing once the
count exceeds maxFileSize, and either growing the in-memory buffer or,
from the moment the count exceeds maxSize, writing to a storage file. -/
def filePartLoop (env : Env) (opts : PartsOptions) (name contentType : String)
    (originalName : Option String) (input : List Bytes) (byteLength : Nat)
    (buf : Option Bytes) (file : Option Nat) (filename : Option String)
    (st : MState) : LoopOut :=
  match input with
  | [] => .fail (.badRequest "Unexpected EOF reached") st
  | bytes :: rest =>
    let strippedBytes := stripEol bytes
    if isEqual strippedBytes opts.part || isEqual strippedBytes opts.final then
      let st1 : MState :=
        match file with
        | some h => ⟨st.fs.close h, st.outPath⟩
        | none => st
      let y : String × PartValue :=
        (name, .file ⟨buf, contentType, filename, name, originalName⟩)
      if isEqual strippedBytes opts.final then .last y rest st1 else .more y rest st1
    else
      let byteLength1 := byteLength + bytes.length
      if byteLength1 > opts.maxFileSize then
        let st1 : MState :=
          match file with
          | some h => ⟨st.fs.close h, st.outPath⟩
          | none => st
        .fail (.requestEntityTooLarge
          ("File size exceeds limit of " ++ Nat.repr opts.maxFileSize ++ " bytes.")) st1
      else
        match buf with
        | some b =>
          if byteLength1 > opts.maxSize then
            match getFile env opts.pre st contentType with
            | .error e => .fail e st
            | .ok (fn, h, st1) =>
              let st2 : MState := ⟨st1.fs.writeAll h b, st1.outPath⟩
              let st3 : MState := ⟨st2.fs.writeAll h bytes, st2.outPath⟩
              filePartLoop env opts name contentType originalName rest byteLength1
                none (some h) (some fn) st3
          else
            filePartLoop env opts name contentType originalName rest byteLength1
              (some (b ++ bytes)) file filename st
        | none =>
          match file with
          | some h =>
            filePartLoop env opts name contentType originalName rest byteLength1
              none (some h) filename ⟨st.fs.writeAll h bytes, st.outPath⟩
          | none =>
            filePartLoop env opts name contentType originalName rest byteLength1
              none none filename st

/-- The inner line loop of the field branch of the parts generator
(multipart.ts lines 226 to 243): read lines (end-of-line stripped) until a
boundary line is found, collecting the decoded lines, and yield them joined
by a newline. -/
def fieldPartLoop (opts : PartsOptions) (name : String) (input : List Bytes)
    (lines : List String) (st : MState) : LoopOut :=
  match input with
  | [] => .fail (.badRequest "Unexpected EOF reached") st
  | rawLine :: rest =>
    let bytes := stripEol rawLine
    if isEqual bytes opts.part || isEqual bytes opts.final then
      let y : String × PartValue := (name, .field (String.intercalate "\n" lines))
      if isEqual bytes opts.final then .last y rest st else .more y rest st
    else fieldPartLoop opts name rest (lines ++ [decodeBytes bytes]) st

/-- The initialization of the file branch (multipart.ts lines 165 to 175):
with a positive maxSize start with an empty in-memory buffer, otherwise
create the storage file up front. -/
def fileInit (env : Env) (opts : PartsOptions) (contentType : String) (st : MState) :
    Except Err (Option Bytes × Option Nat × Option String × MState) :=
  if opts.maxSize ≠ 0 then .ok (some [], none, none, st)
  else
    match getFile env opts.pre st contentType with
    | .error e => .error e
    | .ok (fn, h, st1) => .ok (none, some h, some fn, st1)

/-- The outcome of running the parts generator to its end: the parts it
yielded in order, the error that ended it (none when it returned normally
at the final boundary), and the final state. -/
structure PartsOut where
  yielded : List (String × PartValue)
  err : Option Err
  st : MState
deriving DecidableEq, Repr

/-- The outer loop of the parts generator (multipart.ts lines 141 to 244):
parse a header block, check the content-disposition header, extract the
part name, and read the lines of the part with the file branch (a
content-type header is present and nonempty) or the field branch.  The
recursion is driven by a fuel counter so that runs stay computable by the
kernel; every pass through the loop consumes at least one line, so the
fuel-exhausted branch is unreachable whenever the fuel exceeds the number
of remaining lines (partsLoopF_congr below), and partsLoop always supplies
enough. -/
def partsLoopF (env : Env) (opts : PartsOptions) :
    Nat → List Bytes → MState → PartsOut
  | 0, _, st => ⟨[], some (.badRequest "Decoder fuel exhausted."), st⟩
  | fuel + 1, input, st =>
    match readHeaders input with
    | .error e => ⟨[], some e, st⟩
    | .ok (headers, rest) =>
      let contentType := getAssoc headers (encodeStr "content-type")
      let contentDisposition := getAssoc headers (encodeStr "content-disposition")
      if ¬ jsTruthy contentDisposition then
        ⟨[], some (.badRequest "Form data part missing content-disposition header"), st⟩
      else
        let cd := contentDisposition.getD []
        if ¬ (toLowerB (cd.take 10) == encodeStr "form-data;") then
          ⟨[], some (.badRequest "Unexpected content-disposition header"), st⟩
        else
          match paramValue (encodeStr "name") cd with
          | none =>
            ⟨[], some (.badRequest "Unable to determine name of form body part"), st⟩
          | some rawName =>
            let name := decodeBytes (unquoteB rawName)
            if jsTruthy contentType then
              let ct := decodeBytes (contentType.getD [])
              let originalName := (getFilename cd).map decodeBytes
              match fileInit env opts ct st with
              | .error e => ⟨[], some e, st⟩
              | .ok (buf, file, filename, st1) =>
                match filePartLoop env opts name ct originalName rest 0 buf file
                    filename st1 with
                | .fail e st2 => ⟨[], some e, st2⟩
                | .last y _ st2 => ⟨[y], none, st2⟩
                | .more y rest2 st2 =>
                  let out := partsLoopF env opts fuel rest2 st2
                  ⟨y :: out.yielded, out.err, out.st⟩
            else
              match fieldPartLoop opts name rest [] st with
              | .fail e st2 => ⟨[], some e, st2⟩
              | .last y _ st2 => ⟨[y], none, st2⟩
              | .more y rest2 st2 =>
                let out := partsLoopF env opts fuel rest2 st2
                ⟨y :: out.yielded, out.err, out.st⟩

/-- The outer loop of the parts generator with the fuel filled in: one more
unit than there are lines, which partsLoopF_congr shows is always enough. -/
def partsLoop (env : Env) (opts : PartsOptions) (input : List Bytes) (st : MState) :
    PartsOut :=
  partsLoopF env opts (input.length + 1) input st

/-- Run the parts generator from a fresh state over a storage state, the
outPath variable starting as the configured output path. -/
def partsRun (env : Env) (opts : PartsOptions) (input : List Bytes) (fs : FileSys) :
    PartsOut :=
  partsLoop env opts input ⟨fs, opts.outPath⟩

/-- readToStartOrEnd of multipart.ts: discard lines until one equals the
part boundary (true) or the final boundary (false); bad request when the
lines run out first. -/
def readToStartOrEnd (input : List Bytes) (start endB : Bytes) :
    Except Err (Bool × List Bytes) :=
  match input with
  | [] => .error (.badRequest "Unable to find multi-part boundary.")
  | line :: rest =>
    let bytes := stripEol line
    if isEqual bytes start then .ok (true, rest)
    else if isEqual bytes endB then .ok (false, rest)
    else readToStartOrEnd rest start endB

/-- multipart.ts FormDataBody: the record of fields and the optional array
of files (absent when no file part was read). -/
structure FormDataBody where
  fields : List (String × String)
  files : Option (List FormDataFile)
deriving DecidableEq, Repr

/-- The accumulation loop of FormDataReader.read (multipart.ts lines 296 to
315): a field overwrites the entry of its name, a file is appended to the
files array (created on first use). -/
def aggregate : List (String × PartValue) → FormDataBody → FormDataBody
  | [], acc => acc
  | (key, .field v) :: ps, acc => aggregate ps ⟨setAssoc acc.fields key v, acc.files⟩
  | (_, .file f) :: ps, acc => aggregate ps ⟨acc.fields, some (acc.files.getD [] ++ [f])⟩

/-- multipart.ts FormDataReadOptions. -/
structure FormDataReadOptions where
  bufferSize : Option Nat := none
  maxFileSize : Option Nat := none
  maxSize : Option Nat := none
  outPath : Option String := none
  pre : Option String := none
deriving Repr

/-- The decoder instance: the two boundary tokens derived at construction
and the single-use flag. -/
structure FormDataReader where
  boundaryPart : Bytes
  boundaryFinal : Bytes
  reading : Bool
deriving DecidableEq, Repr

/-- The FormDataReader constructor: extract and unquote the boundary
parameter of the content type and derive the two boundary tokens. -/
def FormDataReader.make (contentType : String) : Except Err FormDataReader :=
  match paramValue (encodeStr "boundary") (encodeStr contentType) with
  | none => .error (.badRequest "Content type does not contain a valid boundary.")
  | some raw =>
    let boundary := decodeBytes (unquoteB raw)
    .ok ⟨encodeStr ("--" ++ boundary), encodeStr ("--" ++ boundary ++ "--"), false⟩

/-- The parts options FormDataReader.read and FormDataReader.stream pass to
the parts generator, with the defaults of the source filled in. -/
def toPartsOptions (r : FormDataReader) (o : FormDataReadOptions) : PartsOptions :=
  { final := r.boundaryFinal
    part := r.boundaryPart
    maxFileSize := o.maxFileSize.getD DEFAULT_MAX_FILE_SIZE
    maxSize := o.maxSize.getD DEFAULT_MAX_SIZE
    outPath := o.outPath
    pre := o.pre }

/-- What a call of FormDataReader.read produces: its result or error, the
reader with its updated single-use flag, and the storage state. -/
structure ReadOut where
  result : Except Err FormDataBody
  reader : FormDataReader
  fs : FileSys
deriving Repr

/-- FormDataReader.read (multipart.ts lines 277 to 324): fail when already
reading, otherwise set the flag, skip the preamble (an immediately final
body gives the empty result), aggregate the yielded parts, and swallow a
permission-denied failure (logging it and returning the partial result)
while propagating every other failure. -/
def FormDataReader.read (env : Env) (r : FormDataReader)
    (options : FormDataReadOptions) (input : List Bytes) (fs : FileSys) : ReadOut :=
  if r.reading then ⟨.error .alreadyReading, r, fs⟩
  else
    let r2 : FormDataReader := { r with reading := true }
    match readToStartOrEnd input r.boundaryPart r.boundaryFinal with
    | .error e => ⟨.error e, r2, fs⟩
    | .ok (false, _) => ⟨.ok ⟨[], none⟩, r2, fs⟩
    | .ok (true, rest) =>
      let out := partsRun env (toPartsOptions r options) rest fs
      match out.err with
      | some .permissionDenied => ⟨.ok (aggregate out.yielded ⟨[], none⟩), r2, out.st.fs⟩
      | some e => ⟨.error e, r2, out.st.fs⟩
      | none => ⟨.ok (aggregate out.yielded ⟨[], none⟩), r2, out.st.fs⟩

/-- What a full iteration of FormDataReader.stream produces: the parts it
yielded in order, the error it threw to the consumer (none when it
completed, also when a permission-denied failure was swallowed), the
reader with its updated flag, and the storage state. -/
structure StreamOut where
  yielded : List (String × PartValue)
  err : Option Err
  reader : FormDataReader
  fs : FileSys
deriving Repr

/-- FormDataReader.stream (multipart.ts lines 330 to 369): the same guard,
preamble handling and permission-denied swallowing as read, but the parts
are handed to the caller one at a time instead of being aggregated. -/
def FormDataReader.stream (env : Env) (r : FormDataReader)
    (options : FormDataReadOptions) (input : List Bytes) (fs : FileSys) : StreamOut :=
  if r.reading then ⟨[], some .alreadyReading, r, fs⟩
  else
    let r2 : FormDataReader := { r with reading := true }
    match readToStartOrEnd input r.boundaryPart r.boundaryFinal with
    | .error e => ⟨[], some e, r2, fs⟩
    | .ok (false, _) => ⟨[], none, r2, fs⟩
    | .ok (true, rest) =>
      let out := partsRun env (toPartsOptions r options) rest fs
      match out.err with
      | some .permissionDenied => ⟨out.yielded, none, r2, out.st.fs⟩
      | some e => ⟨out.yielded, some e, r2, out.st.fs⟩
      | none => ⟨out.yielded, none, r2, out.st.fs⟩

/-- The field parts of a yielded sequence, in order. -/
def fieldsOf (ps : List (String × PartValue)) : List (String × String) :=
  ps.filterMap fun p =>
    match p.2 with
    | .field v => some (p.1, v)
    | .file _ => none

/-- The file parts of a yielded sequence, in order. -/
def filesOf (ps : List (String × PartValue)) : List FormDataFile :=
  ps.filterMap fun p =>
    match p.2 with
    | .file f => some f
    | .field _ => none

/-- One step of the scan for the last field of a given name: a field part
with that name replaces the value seen so far. -/
def lastStep (k : String) (a : Option String) (p : String × PartValue) : Option String :=
  match p with
  | (k0, .field v) => if k0 == k then some v else a
  | _ => a

/-- The value of the last field part with the given name, scanning the
yielded sequence left to right. -/
def lastValue (ps : List (String × PartValue)) (k : String) : Option String :=
  ps.foldl (lastStep k) none

/-- The two end-of-line bytes of the wire format. -/
def crlf : Bytes := [13, 10]

/-- Cut a byte stream into the lines a line source would hand out: a cut
after every line feed byte, the line feed kept on the line. -/
def splitLines : Bytes → List Bytes
  | [] => []
  | c :: rest =>
    if c = 10 then [c] :: splitLines rest
    else
      match splitLines rest with
      | [] => [[c]]
      | l :: ls => (c :: l) :: ls

/-- Surround bytes with double quotes. -/
def quoteB (b : Bytes) : Bytes := 34 :: (b ++ [34])

/-- Input to the reference multipart encoder: a named text field or a named
file with an original filename, a media type and raw content bytes.
The encoder below follows the wire format of the spec; it exists to state
the round-trip property and is no translation of source code. -/
inductive PartSpec where
  | fld (name value : String)
  | fil (name fname contentType : String) (content : Bytes)

/-- Reference encoder: a part boundary line. -/
def partBoundLine (boundary : String) : Bytes :=
  encodeStr ("--" ++ boundary) ++ crlf

/-- Reference encoder: the final boundary line. -/
def finalBoundLine (boundary : String) : Bytes :=
  encodeStr ("--" ++ boundary ++ "--") ++ crlf

/-- Reference encoder: the content-disposition header line of a field. -/
def cdFieldLine (name : String) : Bytes :=
  encodeStr "content-disposition" ++ [58, 32] ++ encodeStr "form-data; name=" ++
    quoteB (encodeStr name) ++ crlf

/-- Reference encoder: the content-disposition header line of a file. -/
def cdFileLine (name fname : String) : Bytes :=
  encodeStr "content-disposition" ++ [58, 32] ++ encodeStr "form-data; name=" ++
    quoteB (encodeStr name) ++ encodeStr "; filename=" ++ quoteB (encodeStr fname) ++ crlf

/-- Reference encoder: the content-type header line of a file. -/
def ctLine (contentType : String) : Bytes :=
  encodeStr "content-type" ++ [58, 32] ++ encodeStr contentType ++ crlf

/-- Reference encoder: the lines of one part, boundary lines excluded: the
header block, a blank line, and the payload followed by one CRLF, cut into
lines. -/
def specLines : PartSpec → List Bytes
  | .fld n v => [cdFieldLine n, crlf] ++ splitLines (encodeStr v ++ crlf)
  | .fil n fn ct c => [cdFileLine n fn, ctLine ct, crlf] ++ splitLines (c ++ crlf)

/-- Reference encoder: the lines of a nonempty run of parts, each part
terminated by the next boundary line, the last one by the final boundary. -/
def encodeRest (boundary : String) : List PartSpec → List Bytes
  | [] => []
  | [p] => specLines p ++ [finalBoundLine boundary]
  | p :: ps => specLines p ++ partBoundLine boundary :: encodeRest boundary ps

/-- Reference multipart encoder over the line-oriented wire format of the
spec: the first boundary line followed by the encoded parts, or just the
final boundary line when there are no parts. -/
def encodeMultipart (boundary : String) (specs : List PartSpec) : List Bytes :=
  match specs with
  | [] => [finalBoundLine boundary]
  | _ => partBoundLine boundary :: encodeRest boundary specs

/-- The part this decoder is expected to yield for an encoded input part
read in memory: the name and value of a field, or a FormDataFile holding
the content bytes followed by the end-of-line bytes that preceded the
boundary line. -/
def expectedOf : PartSpec → String × PartValue
  | .fld n v => (n, .field v)
  | .fil n fn ct c => (n, .file ⟨some (c ++ crlf), ct, none, n, some fn⟩)

/-- Bytes safe inside a quoted header parameter: printable ASCII without
the double quote, the semicolon and the backslash (a backslash would be
collapsed as an escape when the quoted value is unquoted). -/
abbrev headerSafe (b : Bytes) : Prop :=
  ∀ c ∈ b, 33 ≤ c ∧ c ≤ 126 ∧ c ≠ 34 ∧ c ≠ 59 ∧ c ≠ 92

/-- Bytes safe as a header value: printable ASCII. -/
abbrev tokenSafe (b : Bytes) : Prop := ∀ c ∈ b, 33 ≤ c ∧ c ≤ 126

/-- A line that matches neither boundary token of the decoder. -/
abbrev noBoundaryLine (pt ft l : Bytes) : Prop :=
  isEqual (stripEol l) pt = false ∧ isEqual (stripEol l) ft = false

/-- The conditions under which a part survives the trip through the wire
format: names and filenames are safe for quoted parameters, the media type
is a safe nonempty token, a field value contains no carriage return, and no
payload line of the part looks like a boundary line. -/
def safeSpec (pt ft : Bytes) : PartSpec → Prop
  | .fld n v => headerSafe (encodeStr n) ∧ 13 ∉ encodeStr v ∧
      ∀ l ∈ splitLines (encodeStr v ++ crlf), noBoundaryLine pt ft l
  | .fil n fn ct c => headerSafe (encodeStr n) ∧ headerSafe (encodeStr fn) ∧
      tokenSafe (encodeStr ct) ∧ encodeStr ct ≠ [] ∧
      ∀ l ∈ splitLines (c ++ crlf), noBoundaryLine pt ft l

/-- A sample environment for concrete runs: every media type maps to the
extension bin, storage works, temporary directories land in tmp. -/
def exEnv : Env := ⟨fun _ => some "bin", false, "tmp"⟩

/-- A sample environment whose storage operations are denied. -/
def exEnvDenied : Env := ⟨fun _ => some "bin", true, "tmp"⟩

/-- A sample environment in which no media type has a known extension. -/
def exEnvNoExt : Env := ⟨fun _ => none, false, "tmp"⟩

/-- A sample decoder instance for the boundary B, not yet reading. -/
def exReader : FormDataReader := ⟨encodeStr "--B", encodeStr "--B--", false⟩

/-- Sample parts options for the boundary B. -/
def exOpts : PartsOptions := ⟨encodeStr "--B--", encodeStr "--B", 100, 10, none, none⟩

/-- A body with two fields of the same name and two files of the same name,
for the witness of the aggregation claim. -/
def exDupBody : List Bytes :=
  [ encodeStr "--B" ++ crlf,
    encodeStr "content-disposition: form-data; name=\"a\"" ++ crlf,
    crlf,
    encodeStr "1" ++ crlf,
    encodeStr "--B" ++ crlf,
    encodeStr "content-disposition: form-data; name=\"a\"" ++ crlf,
    crlf,
    encodeStr "2" ++ crlf,
    encodeStr "--B" ++ crlf,
    encodeStr "content-disposition: form-data; name=\"f\"; filename=\"x\"" ++ crlf,
    encodeStr "content-type: t/a" ++ crlf,
    crlf,
    encodeStr "X" ++ crlf,
    encodeStr "--B" ++ crlf,
    encodeStr "content-disposition: form-data; name=\"f\"; filename=\"y\"" ++ crlf,
    encodeStr "content-type: t/b" ++ crlf,
    crlf,
    encodeStr "Y" ++ crlf,
    encodeStr "--B--" ++ crlf ]

/-- A body whose second part raises a storage permission failure at file
creation: a field a=hello followed by a file part, decoded with the default
in-memory ceiling of zero in an environment with storage denied. -/
def exPermBody : List Bytes :=
  [ encodeStr "--B" ++ crlf,
    encodeStr "content-disposition: form-data; name=\"a\"" ++ crlf,
    crlf,
    encodeStr "hello" ++ crlf,
    encodeStr "--B" ++ crlf,
    encodeStr "content-disposition: form-data; name=\"f\"; filename=\"x\"" ++ crlf,
    encodeStr "content-type: t/p" ++ crlf,
    crlf,
    encodeStr "x" ++ crlf,
    encodeStr "--B--" ++ crlf ]

/-- Join lines with a line feed byte between them, the byte-level image of
joining decoded lines with a newline character. -/
def joinLF : List Bytes → Bytes
  | [] => []
  | [x] => x
  | x :: xs => x ++ [10] ++ joinLF xs

/-- Size conditions a part must meet to be decoded in memory: nothing for a
field, and for a file that its content plus the end-of-line bytes fit both
within maxSize and maxFileSize. -/
def partSizeOk (maxSize maxFileSize : Nat) : PartSpec → Prop
  | .fld _ _ => True
  | .fil _ _ _ c => c.length + 2 ≤ maxSize ∧ c.length + 2 ≤ maxFileSize

/-- Whether a part spec meets the wire-safety conditions is decidable. -/
instance (pt ft : Bytes) : (p : PartSpec) → Decidable (safeSpec pt ft p)
  | .fld _ _ => inferInstanceAs (Decidable (_ ∧ _ ∧ _))
  | .fil _ _ _ _ => inferInstanceAs (Decidable (_ ∧ _ ∧ _ ∧ _ ∧ _))

/-- Whether a part spec meets the size conditions is decidable. -/
instance (ms mf : Nat) : (p : PartSpec) → Decidable (partSizeOk ms mf p)
  | .fld _ _ => inferInstanceAs (Decidable True)
  | .fil _ _ _ _ => inferInstanceAs (Decidable (_ ∧ _))

/-- Two sample parts for concrete round-trip runs: a text field and a small
file. -/
def exSpecs : List PartSpec :=
  [.fld "a" "hi", .fil "f" "orig.txt" "text/plain" (encodeStr "x")]

theorem readHeadersAux_length : ∀ {input : List Bytes} {acc hs : List (Bytes × Bytes)}
    {rest : List Bytes}, readHeadersAux input acc = .ok (hs, rest) →
    rest.length < input.length := by
  intro input
  induction input with
  | nil => intro acc hs rest h; simp [readHeadersAux] at h
  | cons line tl ih =>
    intro acc hs rest h
    simp only [readHeadersAux] at h
    split at h
    · cases h
      simp
    · split at h
      · cases h
      · exact Nat.lt_trans (ih h) (Nat.lt_succ_self _)

theorem readHeaders_length {input : List Bytes} {hs : List (Bytes × Bytes)}
    {rest : List Bytes} (h : readHeaders input = .ok (hs, rest)) :
    rest.length < input.length :=
  readHeadersAux_length h

theorem filePartLoop_rest_length : ∀ {env opts name contentType originalName}
    {input : List Bytes} {byteLength buf file filename st y rest st1},
    (filePartLoop env opts name contentType originalName input byteLength buf file
        filename st = .more y rest st1 ∨
      filePartLoop env opts name contentType originalName input byteLength buf file
        filename st = .last y rest st1) →
    rest.length < input.length := by
  intro env opts name contentType originalName input
  induction input with
  | nil =>
    intro byteLength buf file filename st y rest st1 h
    simp [filePartLoop] at h
  | cons bytes tl ih =>
    intro byteLength buf file filename st y rest st1 h
    simp only [filePartLoop] at h
    split at h
    · split at h <;> rcases h with h | h <;> cases h <;> simp
    · split at h
      · simp at h
      · split at h
        · split at h
          · split at h
            · simp at h
            · exact Nat.lt_trans (ih h) (Nat.lt_succ_self _)
          · exact Nat.lt_trans (ih h) (Nat.lt_succ_self _)
        · split at h
          · exact Nat.lt_trans (ih h) (Nat.lt_succ_self _)
          · exact Nat.lt_trans (ih h) (Nat.lt_succ_self _)

theorem fieldPartLoop_rest_length : ∀ {opts name} {input : List Bytes}
    {lines st y rest st1},
    (fieldPartLoop opts name input lines st = .more y rest st1 ∨
      fieldPartLoop opts name input lines st = .last y rest st1) →
    rest.length < input.length := by
  intro opts name input
  induction input with
  | nil => intro lines st y rest st1 h; simp [fieldPartLoop] at h
  | cons rawLine tl ih =>
    intro lines st y rest st1 h
    simp only [fieldPartLoop] at h
    split at h
    · split at h <;> rcases h with h | h <;> cases h <;> simp
    · exact Nat.lt_trans (ih h) (Nat.lt_succ_self _)

theorem partsLoopF_congr (env : Env) (opts : PartsOptions) :
    ∀ (fuel fuel2 : Nat) (input : List Bytes) (st : MState),
      input.length < fuel → input.length < fuel2 →
      partsLoopF env opts fuel input st = partsLoopF env opts fuel2 input st := by
  intro fuel
  induction fuel with
  | zero => intro fuel2 input st h; exact absurd h (Nat.not_lt_zero _)
  | succ f ih =>
    intro fuel2 input st h h2
    cases fuel2 with
    | zero => exact absurd h2 (Nat.not_lt_zero _)
    | succ f2 =>
      simp only [partsLoopF]
      cases hh : readHeaders input with
      | error e => rfl
      | ok pr =>
        obtain ⟨headers, rest⟩ := pr
        have hrest : rest.length < input.length := readHeaders_length hh
        dsimp only
        split
        · rfl
        · split
          · rfl
          · split
            · rfl
            · split
              · split
                · rfl
                · split
                  · rfl
                  · rfl
                  · next y rest2 st2 hf =>
                      rw [ih f2 rest2 st2
                        (by
                          have := filePartLoop_rest_length (Or.inl hf)
                          omega)
                        (by
                          have := filePartLoop_rest_length (Or.inl hf)
                          omega)]
              · split
                · rfl
                · rfl
                · next y rest2 st2 hf =>
                    rw [ih f2 rest2 st2
                      (by
                        have := fieldPartLoop_rest_length (Or.inl hf)
                        omega)
                      (by
                        have := fieldPartLoop_rest_length (Or.inl hf)
                        omega)]

/-- C2: for every decoder instance, after either consumption method (read or
stream) has been invoked once, any second invocation of either method fails
immediately, before and without reading any further bytes from the
underlying stream.  Any invocation leaves the single-use flag set; with the
flag set, read fails with the already-reading error and stream throws it
before yielding anything, the storage state is untouched, and the outcome
does not depend on the stream contents or the options at all. -/
theorem second_call_fails (env : Env) (r : FormDataReader)
    (opts opts2 : FormDataReadOptions) (input input2 : List Bytes) (fs : FileSys)
    (h : r.reading = true) :
    ((FormDataReader.read env r opts input fs).result = .error .alreadyReading ∧
      (FormDataReader.read env r opts input fs).fs = fs ∧
      FormDataReader.read env r opts input fs = FormDataReader.read env r opts2 input2 fs) ∧
    ((FormDataReader.stream env r opts input fs).err = some .alreadyReading ∧
      (FormDataReader.stream env r opts input fs).yielded = [] ∧
      (FormDataReader.stream env r opts input fs).fs = fs ∧
      FormDataReader.stream env r opts input fs =
        FormDataReader.stream env r opts2 input2 fs) ∧
    (∀ (r0 : FormDataReader) (opts0 : FormDataReadOptions) (input0 : List Bytes)
        (fs0 : FileSys),
      (FormDataReader.read env r0 opts0 input0 fs0).reader.reading = true ∧
      (FormDataReader.stream env r0 opts0 input0 fs0).reader.reading = true) := by
  refine ⟨⟨?_, ?_, ?_⟩, ⟨?_, ?_, ?_, ?_⟩, ?_⟩
  · simp [FormDataReader.read, h]
  · simp [FormDataReader.read, h]
  · simp [FormDataReader.read, h]
  · simp [FormDataReader.stream, h]
  · simp [FormDataReader.stream, h]
  · simp [FormDataReader.stream, h]
  · simp [FormDataReader.stream, h]
  · intro r0 opts0 input0 fs0
    by_cases hr : r0.reading = true
    · constructor <;> simp [FormDataReader.read, FormDataReader.stream, hr]
    · constructor
      · unfold FormDataReader.read
        rw [if_neg hr]
        split
        · rfl
        · rfl
        · dsimp only
          split <;> rfl
      · unfold FormDataReader.stream
        rw [if_neg hr]
        split
        · rfl
        · rfl
        · dsimp only
          split <;> rfl

/-- Witness for second_call_fails at a reader whose flag is set. -/
theorem second_call_fails_witness :
    (FormDataReader.read exEnv ⟨encodeStr "--B", encodeStr "--B--", true⟩ {} [] ⟨[]⟩).result
      = .error .alreadyReading :=
  (second_call_fails exEnv ⟨encodeStr "--B", encodeStr "--B--", true⟩ {} {} [] [] ⟨[]⟩
    rfl).1.1

theorem readToStartOrEnd_append (junk input : List Bytes) (start endB : Bytes)
    (h : ∀ l ∈ junk, isEqual (stripEol l) start = false ∧
      isEqual (stripEol l) endB = false) :
    readToStartOrEnd (junk ++ input) start endB = readToStartOrEnd input start endB := by
  induction junk with
  | nil => rfl
  | cons l tl ih =>
    have hl := h l (by simp)
    simp only [List.cons_append, readToStartOrEnd, hl.1, hl.2, if_false]
    exact ih (fun x hx => h x (by simp [hx]))

/-- C7: lines preceding the first boundary marker are discarded and never
appear in any yielded part (prepending such lines changes nothing about a
read or stream outcome); a candidate line equal to the final marker before
any part marker ends the decode with an empty result and no failure; an
exhausted stream before either marker is the missing-boundary failure. -/
theorem preamble_handling :
    (∀ junk input start endB,
        (∀ l ∈ junk, isEqual (stripEol l) start = false ∧
          isEqual (stripEol l) endB = false) →
        readToStartOrEnd (junk ++ input) start endB =
          readToStartOrEnd input start endB) ∧
    (∀ env r opts junk input fs,
        (∀ l ∈ junk, isEqual (stripEol l) r.boundaryPart = false ∧
          isEqual (stripEol l) r.boundaryFinal = false) →
        FormDataReader.read env r opts (junk ++ input) fs =
          FormDataReader.read env r opts input fs ∧
        FormDataReader.stream env r opts (junk ++ input) fs =
          FormDataReader.stream env r opts input fs) ∧
    (∀ line rest start endB, isEqual (stripEol line) start = false →
        isEqual (stripEol line) endB = true →
        readToStartOrEnd (line :: rest) start endB = .ok (false, rest)) ∧
    (∀ env r opts input rest fs, r.reading = false →
        readToStartOrEnd input r.boundaryPart r.boundaryFinal = .ok (false, rest) →
        (FormDataReader.read env r opts input fs).result = .ok ⟨[], none⟩ ∧
        (FormDataReader.stream env r opts input fs).yielded = [] ∧
        (FormDataReader.stream env r opts input fs).err = none) ∧
    (∀ start endB, readToStartOrEnd [] start endB =
        .error (.badRequest "Unable to find multi-part boundary.")) := by
  refine ⟨readToStartOrEnd_append, ?_, ?_, ?_, fun start endB => rfl⟩
  · intro env r opts junk input fs hj
    have hr := readToStartOrEnd_append junk input r.boundaryPart r.boundaryFinal hj
    constructor
    · by_cases hread : r.reading = true
      · simp [FormDataReader.read, hread]
      · simp only [FormDataReader.read, hread, if_false, hr]
    · by_cases hread : r.reading = true
      · simp [FormDataReader.stream, hread]
      · simp only [FormDataReader.stream, hread, if_false, hr]
  · intro line rest start endB h1 h2
    simp [readToStartOrEnd, h1, h2]
  · intro env r opts input rest fs hread hres
    refine ⟨?_, ?_, ?_⟩ <;> simp [FormDataReader.read, FormDataReader.stream, hread, hres]

/-- Witness for preamble_handling: a junk line before the boundary is
discarded, an immediately final body gives the empty result, an empty body
is the missing-boundary failure. -/
theorem preamble_handling_witness :
    readToStartOrEnd [encodeStr "junk", encodeStr "--B--"] (encodeStr "--B")
        (encodeStr "--B--") =
      readToStartOrEnd [encodeStr "--B--"] (encodeStr "--B") (encodeStr "--B--") ∧
    (FormDataReader.read exEnv exReader {} [encodeStr "--B--"] ⟨[]⟩).result =
      .ok ⟨[], none⟩ ∧
    readToStartOrEnd [] (encodeStr "--B") (encodeStr "--B--") =
      .error (.badRequest "Unable to find multi-part boundary.") :=
  ⟨preamble_handling.1 [encodeStr "junk"] [encodeStr "--B--"] _ _ (by decide),
    (preamble_handling.2.2.2.1 exEnv exReader {} [encodeStr "--B--"] [] ⟨[]⟩ rfl
      (by rfl)).1,
    preamble_handling.2.2.2.2 _ _⟩

theorem fieldPartLoop_fail_eof (opts : PartsOptions) (name : String) :
    ∀ (input : List Bytes) (lines : List String) (st : MState) (e : Err) (st2 : MState),
      fieldPartLoop opts name input lines st = .fail e st2 →
      e = .badRequest "Unexpected EOF reached" := by
  intro input
  induction input with
  | nil =>
    intro lines st e st2 h
    simp only [fieldPartLoop] at h
    cases h
    rfl
  | cons rawLine tl ih =>
    intro lines st e st2 h
    simp only [fieldPartLoop] at h
    split at h
    · split at h <;> cases h
    · exact ih _ _ _ _ h

/-- C10: the maxFileSize limit bounds only file parts: the field branch
accumulates all decoded lines with no size check of any kind, so it can
only ever fail with the unexpected-end-of-stream bad request, never with
the file-too-large failure, and its outcome does not depend on the
configured maxFileSize (or maxSize) at all. -/
theorem field_parts_unbounded :
    (∀ opts name input lines st e st2,
        fieldPartLoop opts name input lines st = .fail e st2 →
        e = .badRequest "Unexpected EOF reached") ∧
    (∀ (opts1 opts2 : PartsOptions) (name : String) (input : List Bytes)
        (lines : List String) (st : MState),
        opts1.part = opts2.part → opts1.final = opts2.final →
        fieldPartLoop opts1 name input lines st =
          fieldPartLoop opts2 name input lines st) := by
  refine ⟨fun opts => fieldPartLoop_fail_eof opts, ?_⟩
  intro opts1 opts2 name input
  induction input with
  | nil => intro lines st h1 h2; rfl
  | cons rawLine tl ih =>
    intro lines st h1 h2
    simp only [fieldPartLoop, h1, h2]
    split
    · rfl
    · exact ih _ _ h1 h2

/-- Witness for field_parts_unbounded: a field part of six raw bytes is
decoded even when maxFileSize is zero, with the same outcome as under a
large maxFileSize. -/
theorem field_parts_unbounded_witness :
    Err.badRequest "Unexpected EOF reached" = .badRequest "Unexpected EOF reached" ∧
    fieldPartLoop ⟨encodeStr "--B--", encodeStr "--B", 0, 0, none, none⟩ "a"
        [encodeStr "hello!" ++ crlf, encodeStr "--B--" ++ crlf] [] ⟨⟨[]⟩, none⟩ =
      fieldPartLoop ⟨encodeStr "--B--", encodeStr "--B", 1000000, 0, none, none⟩ "a"
        [encodeStr "hello!" ++ crlf, encodeStr "--B--" ++ crlf] [] ⟨⟨[]⟩, none⟩ :=
  ⟨field_parts_unbounded.1 ⟨encodeStr "--B--", encodeStr "--B", 0, 0, none, none⟩ "a"
      [] [] ⟨⟨[]⟩, none⟩ (.badRequest "Unexpected EOF reached") ⟨⟨[]⟩, none⟩ rfl,
    field_parts_unbounded.2 _ _ "a" _ [] ⟨⟨[]⟩, none⟩ rfl rfl⟩

theorem getAssoc_cons {α β : Type} [BEq α] (k0 : α) (v0 : β) (tl : List (α × β))
    (b : α) :
    getAssoc ((k0, v0) :: tl) b = if k0 == b then some v0 else getAssoc tl b := by
  by_cases h : k0 == b <;> simp [getAssoc, List.find?, h]

theorem getAssoc_setAssoc {α β : Type} [BEq α] [LawfulBEq α]
    (l : List (α × β)) (a b : α) (v : β) :
    getAssoc (setAssoc l a v) b = if a == b then some v else getAssoc l b := by
  induction l with
  | nil =>
    by_cases hab : a = b
    · simp_all [setAssoc, getAssoc, List.find?]
    · have h1 : (a == b) = false := by simp [hab]
      simp [setAssoc, getAssoc, List.find?, h1]
  | cons p tl ih =>
    obtain ⟨k0, v0⟩ := p
    by_cases hk : k0 = a <;> by_cases hab : a = b <;> by_cases hb : k0 = b <;>
      simp_all [setAssoc, getAssoc_cons]

theorem aggregate_fields (ps : List (String × PartValue)) :
    ∀ (acc : FormDataBody) (k : String),
      getAssoc (aggregate ps acc).fields k =
        ps.foldl (lastStep k) (getAssoc acc.fields k) := by
  induction ps with
  | nil => intro acc k; rfl
  | cons p tl ih =>
    intro acc k
    obtain ⟨k0, pv⟩ := p
    cases pv with
    | field v =>
      simp only [aggregate, List.foldl_cons]
      rw [ih]
      congr 1
      rw [getAssoc_setAssoc]
      rfl
    | file f =>
      simp only [aggregate, List.foldl_cons]
      exact ih _ k

theorem filesOf_cons_field (k0 v : String) (tl : List (String × PartValue)) :
    filesOf ((k0, .field v) :: tl) = filesOf tl := rfl

theorem filesOf_cons_file (k0 : String) (f : FormDataFile)
    (tl : List (String × PartValue)) :
    filesOf ((k0, .file f) :: tl) = f :: filesOf tl := rfl

theorem aggregate_files (ps : List (String × PartValue)) :
    ∀ acc : FormDataBody,
      (aggregate ps acc).files =
        (if filesOf ps = [] then acc.files
          else some (acc.files.getD [] ++ filesOf ps)) := by
  induction ps with
  | nil => intro acc; simp [filesOf, aggregate]
  | cons p tl ih =>
    intro acc
    obtain ⟨k0, pv⟩ := p
    cases pv with
    | field v =>
      simp only [aggregate]
      rw [ih, filesOf_cons_field]
    | file f =>
      simp only [aggregate]
      rw [ih, filesOf_cons_file]
      by_cases ht : filesOf tl = [] <;> simp [ht]

/-- C6: in the buffering consumption mode, when multiple field parts share a
name the fields mapping holds only the value of the last one observed,
while every file part observed is appended to the files sequence in arrival
order, never deduplicated, merged or overwritten, even when names collide;
and the result of read is exactly this aggregation of the yielded parts. -/
theorem read_overwrites_fields_appends_files :
    (∀ (ps : List (String × PartValue)) (k : String),
        getAssoc (aggregate ps ⟨[], none⟩).fields k = lastValue ps k) ∧
    (∀ ps : List (String × PartValue),
        (aggregate ps ⟨[], none⟩).files =
          (if filesOf ps = [] then none else some (filesOf ps))) ∧
    (∀ env r opts input fs rest,
        r.reading = false →
        readToStartOrEnd input r.boundaryPart r.boundaryFinal = .ok (true, rest) →
        (partsRun env (toPartsOptions r opts) rest fs).err = none →
        (FormDataReader.read env r opts input fs).result =
          .ok (aggregate (partsRun env (toPartsOptions r opts) rest fs).yielded
            ⟨[], none⟩)) := by
  refine ⟨?_, ?_, ?_⟩
  · intro ps k
    rw [aggregate_fields]
    rfl
  · intro ps
    rw [aggregate_files]
    rcases h : filesOf ps with _ | _ <;> simp [h, getAssoc]
  · intro env r opts input fs rest hread hres herr
    simp [FormDataReader.read, hread, hres, herr]

/-- Witness for read_overwrites_fields_appends_files on a body holding the
fields a=1 and a=2 and two files both named f, read in memory. -/
theorem read_overwrites_fields_appends_files_witness :
    (FormDataReader.read exEnv exReader { maxSize := some 100 } exDupBody ⟨[]⟩).result =
      .ok (aggregate (partsRun exEnv (toPartsOptions exReader { maxSize := some 100 })
        (exDupBody.drop 1) ⟨[]⟩).yielded ⟨[], none⟩) :=
  read_overwrites_fields_appends_files.2.2 exEnv exReader { maxSize := some 100 }
    exDupBody ⟨[]⟩ (exDupBody.drop 1) rfl (by decide) (by decide)

theorem fieldPartLoop_run (opts : PartsOptions) (name : String) (bLine : Bytes)
    (rest : List Bytes) (st : MState)
    (hb : isEqual (stripEol bLine) opts.part = true ∨
      isEqual (stripEol bLine) opts.final = true) :
    ∀ (fieldLines : List Bytes) (lines0 : List String),
      (∀ l ∈ fieldLines, isEqual (stripEol l) opts.part = false ∧
        isEqual (stripEol l) opts.final = false) →
      fieldPartLoop opts name (fieldLines ++ bLine :: rest) lines0 st =
        (if isEqual (stripEol bLine) opts.final then
          LoopOut.last (name, .field (String.intercalate "\n"
            (lines0 ++ fieldLines.map (fun l => decodeBytes (stripEol l))))) rest st
        else
          LoopOut.more (name, .field (String.intercalate "\n"
            (lines0 ++ fieldLines.map (fun l => decodeBytes (stripEol l))))) rest st) := by
  intro fieldLines
  induction fieldLines with
  | nil =>
    intro lines0 h
    rcases hb with hb | hb <;>
      · simp only [List.nil_append, fieldPartLoop, hb]
        simp
  | cons l tl ih =>
    intro lines0 h
    have hl := h l (by simp)
    simp only [List.cons_append, fieldPartLoop, hl.1, hl.2, Bool.or_self,
      Bool.false_eq_true, if_false, List.append_eq]
    rw [ih (lines0 ++ [decodeBytes (stripEol l)]) (fun x hx => h x (by simp [hx]))]
    simp [List.append_assoc]

/-- C5: a field part (no content-type header) yields the concatenation of
all lines between its header block and the next boundary marker, each line
with its trailing end-of-line bytes stripped, joined by a single newline;
the line terminator before the boundary line is not part of the value. -/
theorem field_value_preserves_lines (opts : PartsOptions) (name : String)
    (fieldLines : List Bytes) (bLine : Bytes) (rest : List Bytes) (st : MState)
    (hnb : ∀ l ∈ fieldLines, isEqual (stripEol l) opts.part = false ∧
      isEqual (stripEol l) opts.final = false)
    (hb : isEqual (stripEol bLine) opts.part = true ∨
      isEqual (stripEol bLine) opts.final = true) :
    fieldPartLoop opts name (fieldLines ++ bLine :: rest) [] st =
      (if isEqual (stripEol bLine) opts.final then
        LoopOut.last (name, .field (String.intercalate "\n"
          (fieldLines.map (fun l => decodeBytes (stripEol l))))) rest st
      else
        LoopOut.more (name, .field (String.intercalate "\n"
          (fieldLines.map (fun l => decodeBytes (stripEol l))))) rest st) := by
  have h := fieldPartLoop_run opts name bLine rest st hb fieldLines [] hnb
  simpa using h

/-- Witness for field_value_preserves_lines: the lines a and b before the
part boundary yield the value a-newline-b. -/
theorem field_value_preserves_lines_witness :
    fieldPartLoop ⟨encodeStr "--B--", encodeStr "--B", 100, 10, none, none⟩ "t"
        [encodeStr "a" ++ crlf, encodeStr "b" ++ crlf, encodeStr "--B" ++ crlf] []
        ⟨⟨[]⟩, none⟩ =
      LoopOut.more ("t", .field "a\nb") [] ⟨⟨[]⟩, none⟩ :=
  (field_value_preserves_lines ⟨encodeStr "--B--", encodeStr "--B", 100, 10, none, none⟩
      "t" [encodeStr "a" ++ crlf, encodeStr "b" ++ crlf] (encodeStr "--B" ++ crlf) []
      ⟨⟨[]⟩, none⟩ (by decide) (by decide)).trans (by decide)

theorem fs_write_last (init : List DiskFile) (df : DiskFile) (b : Bytes) :
    FileSys.writeAll ⟨init ++ [df]⟩ init.length b =
      ⟨init ++ [⟨df.path, df.content ++ b, df.isOpen⟩]⟩ := by
  simp [FileSys.writeAll, List.getElem?_concat_length, List.set_append]

theorem fs_close_last (init : List DiskFile) (df : DiskFile) :
    FileSys.close ⟨init ++ [df]⟩ init.length =
      ⟨init ++ [⟨df.path, df.content, false⟩]⟩ := by
  simp [FileSys.close, List.getElem?_concat_length, List.set_append]

theorem filePartLoop_mem_yield (env : Env) (opts : PartsOptions) (name ct : String)
    (on0 : Option String) (bLine : Bytes) (rest : List Bytes)
    (hb : isEqual (stripEol bLine) opts.part = true ∨
      isEqual (stripEol bLine) opts.final = true) :
    ∀ (ls : List Bytes) (b : Bytes) (fnm : Option String) (st : MState),
      (∀ l ∈ ls, noBoundaryLine opts.part opts.final l) →
      b.length + ls.flatten.length ≤ opts.maxSize →
      b.length + ls.flatten.length ≤ opts.maxFileSize →
      filePartLoop env opts name ct on0 (ls ++ bLine :: rest) b.length (some b)
        none fnm st =
      (if isEqual (stripEol bLine) opts.final then
        LoopOut.last (name, .file ⟨some (b ++ ls.flatten), ct, fnm, name, on0⟩) rest st
      else
        LoopOut.more (name, .file ⟨some (b ++ ls.flatten), ct, fnm, name, on0⟩)
          rest st) := by
  intro ls
  induction ls with
  | nil =>
    intro b fnm st hnb hms hmf
    rcases hb with hb | hb <;>
    · simp only [List.nil_append, filePartLoop, hb, Bool.or_true, Bool.true_or]
      simp
  | cons l tl ih =>
    intro b fnm st hnb hms hmf
    have hl := hnb l (by simp)
    have hlen : ((l :: tl).flatten).length = l.length + tl.flatten.length := by
      simp
    simp only [List.cons_append, filePartLoop, hl.1, hl.2, Bool.or_self,
      Bool.false_eq_true, if_false, List.append_eq]
    have h1 : ¬ (b.length + l.length > opts.maxFileSize) := by omega
    have h2 : ¬ (b.length + l.length > opts.maxSize) := by omega
    rw [if_neg h1, if_neg h2]
    have hblen : b.length + l.length = (b ++ l).length := by simp
    rw [hblen, ih (b ++ l) fnm st (fun x hx => hnb x (by simp [hx]))
      (by rw [List.length_append]; omega) (by rw [List.length_append]; omega)]
    simp [List.append_assoc]

theorem getFile_ok (env : Env) (pre : Option String) (st : MState) (ct : String)
    (e : String) (hext : env.ext ct = some e) (hperm : env.permissionDenied = false) :
    getFile env pre st ct =
      .ok ((st.outPath.getD env.tempDir) ++ "/" ++
          getRandomFilename pre e st.fs.files.length,
        st.fs.files.length,
        ⟨⟨st.fs.files ++ [⟨(st.outPath.getD env.tempDir) ++ "/" ++
          getRandomFilename pre e st.fs.files.length, [], true⟩]⟩,
        some (st.outPath.getD env.tempDir)⟩) := by
  simp [getFile, hext, hperm, FileSys.create]

theorem getFile_extfail (env : Env) (pre : Option String) (st : MState) (ct : String)
    (hext : env.ext ct = none) :
    getFile env pre st ct = .error (.badRequest "Invalid media type for part") := by
  simp [getFile, hext]

theorem getFile_denied (env : Env) (pre : Option String) (st : MState) (ct : String)
    (e : String) (hext : env.ext ct = some e) (hperm : env.permissionDenied = true) :
    getFile env pre st ct = .error .permissionDenied := by
  simp [getFile, hext, hperm]

theorem filePartLoop_disk_yield (env : Env) (opts : PartsOptions) (name ct : String)
    (on0 : Option String) (bLine : Bytes) (rest : List Bytes)
    (hb : isEqual (stripEol bLine) opts.part = true ∨
      isEqual (stripEol bLine) opts.final = true) :
    ∀ (ls : List Bytes) (byteLength : Nat) (init : List DiskFile) (df : DiskFile)
      (fnm : Option String) (op : Option String),
      (∀ l ∈ ls, noBoundaryLine opts.part opts.final l) →
      byteLength + ls.flatten.length ≤ opts.maxFileSize →
      filePartLoop env opts name ct on0 (ls ++ bLine :: rest) byteLength none
        (some init.length) fnm ⟨⟨init ++ [df]⟩, op⟩ =
      (if isEqual (stripEol bLine) opts.final then
        LoopOut.last (name, .file ⟨none, ct, fnm, name, on0⟩) rest
          ⟨⟨init ++ [⟨df.path, df.content ++ ls.flatten, false⟩]⟩, op⟩
      else
        LoopOut.more (name, .file ⟨none, ct, fnm, name, on0⟩) rest
          ⟨⟨init ++ [⟨df.path, df.content ++ ls.flatten, false⟩]⟩, op⟩) := by
  intro ls
  induction ls with
  | nil =>
    intro byteLength init df fnm op hnb hmf
    rcases hb with hb | hb <;>
    · simp only [List.nil_append, filePartLoop, hb, Bool.or_true, Bool.true_or]
      rw [fs_close_last]
      simp
  | cons l tl ih =>
    intro byteLength init df fnm op hnb hmf
    have hl := hnb l (by simp)
    have hlen : ((l :: tl).flatten).length = l.length + tl.flatten.length := by simp
    simp only [List.cons_append, filePartLoop, hl.1, hl.2, Bool.or_self,
      Bool.false_eq_true, if_false, List.append_eq]
    have h1 : ¬ (byteLength + l.length > opts.maxFileSize) := by omega
    rw [if_neg h1, fs_write_last]
    rw [ih (byteLength + l.length) init ⟨df.path, df.content ++ l, df.isOpen⟩ fnm op
      (fun x hx => hnb x (by simp [hx])) (by omega)]
    simp [List.append_assoc]

theorem filePartLoop_spill_yield (env : Env) (opts : PartsOptions) (name ct : String)
    (on0 : Option String) (bLine : Bytes) (rest : List Bytes) (e : String)
    (hb : isEqual (stripEol bLine) opts.part = true ∨
      isEqual (stripEol bLine) opts.final = true)
    (hext : env.ext ct = some e) (hperm : env.permissionDenied = false) :
    ∀ (ls : List Bytes) (b : Bytes) (fnm : Option String) (fs0 : FileSys)
      (op0 : Option String),
      (∀ l ∈ ls, noBoundaryLine opts.part opts.final l) →
      b.length ≤ opts.maxSize →
      b.length + ls.flatten.length > opts.maxSize →
      b.length + ls.flatten.length ≤ opts.maxFileSize →
      filePartLoop env opts name ct on0 (ls ++ bLine :: rest) b.length (some b)
        none fnm ⟨fs0, op0⟩ =
      (if isEqual (stripEol bLine) opts.final then
        LoopOut.last (name, .file ⟨none, ct,
            some ((op0.getD env.tempDir) ++ "/" ++
              getRandomFilename opts.pre e fs0.files.length), name, on0⟩) rest
          ⟨⟨fs0.files ++ [⟨(op0.getD env.tempDir) ++ "/" ++
              getRandomFilename opts.pre e fs0.files.length,
            b ++ ls.flatten, false⟩]⟩, some (op0.getD env.tempDir)⟩
      else
        LoopOut.more (name, .file ⟨none, ct,
            some ((op0.getD env.tempDir) ++ "/" ++
              getRandomFilename opts.pre e fs0.files.length), name, on0⟩) rest
          ⟨⟨fs0.files ++ [⟨(op0.getD env.tempDir) ++ "/" ++
              getRandomFilename opts.pre e fs0.files.length,
            b ++ ls.flatten, false⟩]⟩, some (op0.getD env.tempDir)⟩) := by
  intro ls
  induction ls with
  | nil =>
    intro b fnm fs0 op0 hnb hb0 hcross hmf
    simp at hcross
    omega
  | cons l tl ih =>
    intro b fnm fs0 op0 hnb hb0 hcross hmf
    have hl := hnb l (by simp)
    have hlen : ((l :: tl).flatten).length = l.length + tl.flatten.length := by simp
    simp only [List.cons_append, filePartLoop, hl.1, hl.2, Bool.or_self,
      Bool.false_eq_true, if_false, List.append_eq]
    have h1 : ¬ (b.length + l.length > opts.maxFileSize) := by omega
    rw [if_neg h1]
    by_cases hsp : b.length + l.length > opts.maxSize
    · rw [if_pos hsp, getFile_ok env opts.pre ⟨fs0, op0⟩ ct e hext hperm]
      dsimp only
      rw [fs_write_last, fs_write_last]
      have hcall := filePartLoop_disk_yield env opts name ct on0 bLine rest hb tl
        (b.length + l.length) fs0.files
        ⟨(op0.getD env.tempDir) ++ "/" ++
          getRandomFilename opts.pre e fs0.files.length, ([] : Bytes) ++ b ++ l, true⟩
        (some ((op0.getD env.tempDir) ++ "/" ++
          getRandomFilename opts.pre e fs0.files.length))
        (some (op0.getD env.tempDir))
        (fun x hx => hnb x (by simp [hx])) (by omega)
      simp only at hcall
      rw [hcall]
      simp [List.append_assoc]
    · rw [if_neg hsp]
      have hblen : b.length + l.length = (b ++ l).length := by simp
      rw [hblen, ih (b ++ l) fnm fs0 op0 (fun x hx => hnb x (by simp [hx]))
        (by rw [List.length_append]; omega)
        (by rw [List.length_append]; omega)
        (by rw [List.length_append]; omega)]
      simp [List.append_assoc]

theorem filePartLoop_disk_fail (env : Env) (opts : PartsOptions) (name ct : String)
    (on0 : Option String) (cross : Bytes) (rest2 : List Bytes)
    (hc : noBoundaryLine opts.part opts.final cross) :
    ∀ (ls : List Bytes) (byteLength : Nat) (init : List DiskFile) (df : DiskFile)
      (fnm : Option String) (op : Option String),
      (∀ l ∈ ls, noBoundaryLine opts.part opts.final l) →
      byteLength + ls.flatten.length ≤ opts.maxFileSize →
      byteLength + ls.flatten.length + cross.length > opts.maxFileSize →
      filePartLoop env opts name ct on0 (ls ++ cross :: rest2) byteLength none
        (some init.length) fnm ⟨⟨init ++ [df]⟩, op⟩ =
        .fail (.requestEntityTooLarge
            ("File size exceeds limit of " ++ Nat.repr opts.maxFileSize ++ " bytes."))
          ⟨⟨init ++ [⟨df.path, df.content ++ ls.flatten, false⟩]⟩, op⟩ := by
  intro ls
  induction ls with
  | nil =>
    intro byteLength init df fnm op hnb hmf hcr
    simp only [List.flatten_nil, List.length_nil, Nat.add_zero] at hmf hcr
    simp only [List.nil_append, filePartLoop, hc.1, hc.2, Bool.or_self,
      Bool.false_eq_true, if_false, List.append_eq]
    rw [if_pos hcr, fs_close_last]
    simp
  | cons l tl ih =>
    intro byteLength init df fnm op hnb hmf hcr
    have hl := hnb l (by simp)
    have hlen : ((l :: tl).flatten).length = l.length + tl.flatten.length := by simp
    simp only [List.cons_append, filePartLoop, hl.1, hl.2, Bool.or_self,
      Bool.false_eq_true, if_false, List.append_eq]
    have h1 : ¬ (byteLength + l.length > opts.maxFileSize) := by omega
    rw [if_neg h1, fs_write_last]
    rw [ih (byteLength + l.length) init ⟨df.path, df.content ++ l, df.isOpen⟩ fnm op
      (fun x hx => hnb x (by simp [hx])) (by omega) (by omega)]
    simp [List.append_assoc]

theorem filePartLoop_mem_fail (env : Env) (opts : PartsOptions) (name ct : String)
    (on0 : Option String) (cross : Bytes) (rest2 : List Bytes) (e : String)
    (hc : noBoundaryLine opts.part opts.final cross)
    (hext : env.ext ct = some e) (hperm : env.permissionDenied = false) :
    ∀ (ls : List Bytes) (b : Bytes) (fnm : Option String) (fs0 : FileSys)
      (op0 : Option String),
      (∀ l ∈ ls, noBoundaryLine opts.part opts.final l) →
      b.length ≤ opts.maxSize →
      b.length + ls.flatten.length ≤ opts.maxFileSize →
      b.length + ls.flatten.length + cross.length > opts.maxFileSize →
      ∃ st2 : MState,
        filePartLoop env opts name ct on0 (ls ++ cross :: rest2) b.length (some b)
          none fnm ⟨fs0, op0⟩ =
          .fail (.requestEntityTooLarge
              ("File size exceeds limit of " ++ Nat.repr opts.maxFileSize ++ " bytes."))
            st2 ∧
        (fs0.allClosed → st2.fs.allClosed) := by
  intro ls
  induction ls with
  | nil =>
    intro b fnm fs0 op0 hnb hbm hmf hcr
    simp only [List.flatten_nil, List.length_nil, Nat.add_zero] at hmf hcr
    refine ⟨⟨fs0, op0⟩, ?_, fun hcl => hcl⟩
    simp only [List.nil_append, filePartLoop, hc.1, hc.2, Bool.or_self,
      Bool.false_eq_true, if_false, List.append_eq]
    rw [if_pos hcr]
  | cons l tl ih =>
    intro b fnm fs0 op0 hnb hbm hmf hcr
    have hl := hnb l (by simp)
    have hlen : ((l :: tl).flatten).length = l.length + tl.flatten.length := by simp
    have h1 : ¬ (b.length + l.length > opts.maxFileSize) := by omega
    by_cases hsp : b.length + l.length > opts.maxSize
    · refine ⟨⟨⟨fs0.files ++ [⟨(op0.getD env.tempDir) ++ "/" ++
          getRandomFilename opts.pre e fs0.files.length,
          (([] : Bytes) ++ b) ++ l ++ tl.flatten, false⟩]⟩,
          some (op0.getD env.tempDir)⟩, ?_, ?_⟩
      · simp only [List.cons_append, filePartLoop, hl.1, hl.2, Bool.or_self,
          Bool.false_eq_true, if_false, List.append_eq]
        rw [if_neg h1, if_pos hsp, getFile_ok env opts.pre ⟨fs0, op0⟩ ct e hext hperm]
        dsimp only
        rw [fs_write_last, fs_write_last]
        rw [filePartLoop_disk_fail env opts name ct on0 cross rest2 hc tl
          (b.length + l.length) fs0.files
          ⟨(op0.getD env.tempDir) ++ "/" ++
            getRandomFilename opts.pre e fs0.files.length,
            (([] : Bytes) ++ b) ++ l, true⟩
          (some ((op0.getD env.tempDir) ++ "/" ++
            getRandomFilename opts.pre e fs0.files.length))
          (some (op0.getD env.tempDir))
          (fun x hx => hnb x (by simp [hx])) (by omega) (by omega)]
      · intro hcl f hf
        rcases List.mem_append.mp hf with hf | hf
        · exact hcl f hf
        · simp at hf
          rw [hf]
    · have hblen : b.length + l.length = (b ++ l).length := by simp
      obtain ⟨st2, heq, hcl⟩ := ih (b ++ l) fnm fs0 op0
        (fun x hx => hnb x (by simp [hx]))
        (by rw [List.length_append]; omega)
        (by rw [List.length_append]; omega)
        (by rw [List.length_append]; omega)
      refine ⟨st2, ?_, hcl⟩
      simp only [List.cons_append, filePartLoop, hl.1, hl.2, Bool.or_self,
        Bool.false_eq_true, if_false, List.append_eq]
      rw [if_neg h1, if_neg hsp, hblen, heq]

theorem filePartLoop_spill_extfail (env : Env) (opts : PartsOptions) (name ct : String)
    (on0 : Option String) (hext : env.ext ct = none) :
    ∀ (ls : List Bytes) (rest2 : List Bytes) (b : Bytes) (fnm : Option String)
      (fs0 : FileSys) (op0 : Option String),
      (∀ l ∈ ls, noBoundaryLine opts.part opts.final l) →
      b.length ≤ opts.maxSize →
      b.length + ls.flatten.length > opts.maxSize →
      b.length + ls.flatten.length ≤ opts.maxFileSize →
      filePartLoop env opts name ct on0 (ls ++ rest2) b.length (some b) none fnm
        ⟨fs0, op0⟩ =
        .fail (.badRequest "Invalid media type for part") ⟨fs0, op0⟩ := by
  intro ls
  induction ls with
  | nil =>
    intro rest2 b fnm fs0 op0 hnb hbm hcross hmf
    simp at hcross
    omega
  | cons l tl ih =>
    intro rest2 b fnm fs0 op0 hnb hbm hcross hmf
    have hl := hnb l (by simp)
    have hlen : ((l :: tl).flatten).length = l.length + tl.flatten.length := by simp
    simp only [List.cons_append, filePartLoop, hl.1, hl.2, Bool.or_self,
      Bool.false_eq_true, if_false, List.append_eq]
    have h1 : ¬ (b.length + l.length > opts.maxFileSize) := by omega
    rw [if_neg h1]
    by_cases hsp : b.length + l.length > opts.maxSize
    · rw [if_pos hsp, getFile_extfail env opts.pre ⟨fs0, op0⟩ ct hext]
    · rw [if_neg hsp]
      have hblen : b.length + l.length = (b ++ l).length := by simp
      rw [hblen, ih rest2 (b ++ l) fnm fs0 op0 (fun x hx => hnb x (by simp [hx]))
        (by rw [List.length_append]; omega)
        (by rw [List.length_append]; omega)
        (by rw [List.length_append]; omega)]

/-- C3: for a file part decoded under a positive in-memory ceiling maxSize,
the file branch starts with an empty in-memory buffer; when the cumulative
raw byte count never exceeds maxSize before the boundary line, the yielded
FormDataFile carries the accumulated bytes in content, has no storage path,
and no file is created; when the count exceeds maxSize, exactly one storage
file is created, the buffer is flushed to it, all further bytes are
appended directly, and the yielded FormDataFile has the storage path set,
content unset, and the bytes on disk are the full part content. -/
theorem file_part_spillover_policy (env : Env) (opts : PartsOptions)
    (name ct : String) (on0 : Option String) (bLine : Bytes) (rest : List Bytes)
    (st : MState) (contentLines : List Bytes)
    (hm : opts.maxSize ≠ 0)
    (hnb : ∀ l ∈ contentLines, noBoundaryLine opts.part opts.final l)
    (hb : isEqual (stripEol bLine) opts.part = true ∨
      isEqual (stripEol bLine) opts.final = true)
    (hmf : contentLines.flatten.length ≤ opts.maxFileSize) :
    fileInit env opts ct st = .ok (some [], none, none, st) ∧
    (contentLines.flatten.length ≤ opts.maxSize →
      filePartLoop env opts name ct on0 (contentLines ++ bLine :: rest) 0 (some [])
        none none st =
      (if isEqual (stripEol bLine) opts.final then
        LoopOut.last (name, .file ⟨some contentLines.flatten, ct, none, name, on0⟩)
          rest st
      else
        LoopOut.more (name, .file ⟨some contentLines.flatten, ct, none, name, on0⟩)
          rest st)) ∧
    (∀ e : String, env.ext ct = some e → env.permissionDenied = false →
      contentLines.flatten.length > opts.maxSize →
      filePartLoop env opts name ct on0 (contentLines ++ bLine :: rest) 0 (some [])
        none none st =
      (if isEqual (stripEol bLine) opts.final then
        LoopOut.last (name, .file ⟨none, ct,
            some ((st.outPath.getD env.tempDir) ++ "/" ++
              getRandomFilename opts.pre e st.fs.files.length), name, on0⟩) rest
          ⟨⟨st.fs.files ++ [⟨(st.outPath.getD env.tempDir) ++ "/" ++
              getRandomFilename opts.pre e st.fs.files.length,
            contentLines.flatten, false⟩]⟩, some (st.outPath.getD env.tempDir)⟩
      else
        LoopOut.more (name, .file ⟨none, ct,
            some ((st.outPath.getD env.tempDir) ++ "/" ++
              getRandomFilename opts.pre e st.fs.files.length), name, on0⟩) rest
          ⟨⟨st.fs.files ++ [⟨(st.outPath.getD env.tempDir) ++ "/" ++
              getRandomFilename opts.pre e st.fs.files.length,
            contentLines.flatten, false⟩]⟩, some (st.outPath.getD env.tempDir)⟩)) := by
  refine ⟨by simp [fileInit, hm], ?_, ?_⟩
  · intro hms
    have h := filePartLoop_mem_yield env opts name ct on0 bLine rest hb contentLines
      [] none st hnb (by simpa using hms) (by simpa using hmf)
    simpa using h
  · intro e hext hperm hcross
    have h := filePartLoop_spill_yield env opts name ct on0 bLine rest e hb hext hperm
      contentLines [] none st.fs st.outPath hnb (by simp)
      (by simpa using hcross) (by simpa using hmf)
    simpa using h

/-- Witness for file_part_spillover_policy: with maxSize 10, a part of 4 raw
bytes stays in memory, one of 14 raw bytes is spilled to a single closed
storage file holding the full content. -/
theorem file_part_spillover_policy_witness :
    filePartLoop exEnv exOpts "f" "t/p" none
        [encodeStr "hi" ++ crlf, encodeStr "--B--" ++ crlf] 0 (some []) none none
        ⟨⟨[]⟩, none⟩ =
      LoopOut.last ("f", .file ⟨some (encodeStr "hi" ++ crlf), "t/p", none, "f", none⟩)
        [] ⟨⟨[]⟩, none⟩ ∧
    filePartLoop exEnv exOpts "f" "t/p" none
        [encodeStr "0123456789AB" ++ crlf, encodeStr "--B--" ++ crlf] 0 (some [])
        none none ⟨⟨[]⟩, none⟩ =
      LoopOut.last ("f", .file ⟨none, "t/p", some "tmp/0.bin", "f", none⟩) []
        ⟨⟨[⟨"tmp/0.bin", encodeStr "0123456789AB" ++ crlf, false⟩]⟩, some "tmp"⟩ :=
  ⟨((file_part_spillover_policy exEnv exOpts "f" "t/p" none (encodeStr "--B--" ++ crlf)
      [] ⟨⟨[]⟩, none⟩ [encodeStr "hi" ++ crlf] (by decide) (by decide) (by decide)
      (by decide)).2.1 (by decide)).trans (by decide),
    ((file_part_spillover_policy exEnv exOpts "f" "t/p" none (encodeStr "--B--" ++ crlf)
      [] ⟨⟨[]⟩, none⟩ [encodeStr "0123456789AB" ++ crlf] (by decide) (by decide)
      (by decide) (by decide)).2.2 "bin" rfl rfl (by decide)).trans (by decide)⟩

/-- C4: a file part whose cumulative byte count exceeds maxFileSize before
its boundary line fails with the file-too-large error on the line that
crosses the limit, whatever follows that line; any storage handle open for
the part is closed before the failure; and the failure propagates out of
both consumption methods unchanged. -/
theorem file_too_large_eager_and_closed (env : Env) (opts : PartsOptions)
    (name ct : String) (on0 : Option String) (cross : Bytes) (rest2 : List Bytes)
    (pre0 : List Bytes) (e : String) (fs0 : FileSys) (op0 : Option String)
    (hc : noBoundaryLine opts.part opts.final cross)
    (hnb : ∀ l ∈ pre0, noBoundaryLine opts.part opts.final l)
    (hext : env.ext ct = some e) (hperm : env.permissionDenied = false)
    (hpre : pre0.flatten.length ≤ opts.maxFileSize)
    (hcr : pre0.flatten.length + cross.length > opts.maxFileSize) :
    (∃ st2 : MState,
      filePartLoop env opts name ct on0 (pre0 ++ cross :: rest2) 0 (some [])
        none none ⟨fs0, op0⟩ =
        .fail (.requestEntityTooLarge
            ("File size exceeds limit of " ++ Nat.repr opts.maxFileSize ++ " bytes."))
          st2 ∧
      (fs0.allClosed → st2.fs.allClosed)) ∧
    (filePartLoop env opts name ct on0 (pre0 ++ cross :: rest2) 0 none
        (some fs0.files.length)
        (some ((op0.getD env.tempDir) ++ "/" ++
          getRandomFilename opts.pre e fs0.files.length))
        ⟨⟨fs0.files ++ [⟨(op0.getD env.tempDir) ++ "/" ++
          getRandomFilename opts.pre e fs0.files.length, [], true⟩]⟩,
          some (op0.getD env.tempDir)⟩ =
      .fail (.requestEntityTooLarge
          ("File size exceeds limit of " ++ Nat.repr opts.maxFileSize ++ " bytes."))
        ⟨⟨fs0.files ++ [⟨(op0.getD env.tempDir) ++ "/" ++
          getRandomFilename opts.pre e fs0.files.length,
          pre0.flatten, false⟩]⟩, some (op0.getD env.tempDir)⟩) ∧
    (opts.maxSize = 0 →
      fileInit env opts ct ⟨fs0, op0⟩ =
        .ok (none, some fs0.files.length,
          some ((op0.getD env.tempDir) ++ "/" ++
            getRandomFilename opts.pre e fs0.files.length),
          ⟨⟨fs0.files ++ [⟨(op0.getD env.tempDir) ++ "/" ++
            getRandomFilename opts.pre e fs0.files.length, [], true⟩]⟩,
            some (op0.getD env.tempDir)⟩)) ∧
    (∀ (r : FormDataReader) (opts2 : FormDataReadOptions) (input : List Bytes)
        (fs : FileSys) (rest : List Bytes) (m : String),
      r.reading = false →
      readToStartOrEnd input r.boundaryPart r.boundaryFinal = .ok (true, rest) →
      (partsRun env (toPartsOptions r opts2) rest fs).err =
        some (.requestEntityTooLarge m) →
      (FormDataReader.read env r opts2 input fs).result =
        .error (.requestEntityTooLarge m) ∧
      (FormDataReader.stream env r opts2 input fs).err =
        some (.requestEntityTooLarge m)) := by
  refine ⟨?_, ?_, ?_, ?_⟩
  · have h := filePartLoop_mem_fail env opts name ct on0 cross rest2 e hc hext hperm
      pre0 [] none fs0 op0 hnb (by simp) (by simpa using hpre) (by simpa using hcr)
    simpa using h
  · have h := filePartLoop_disk_fail env opts name ct on0 cross rest2 hc pre0 0
      fs0.files
      ⟨(op0.getD env.tempDir) ++ "/" ++ getRandomFilename opts.pre e fs0.files.length,
        [], true⟩
      (some ((op0.getD env.tempDir) ++ "/" ++
        getRandomFilename opts.pre e fs0.files.length))
      (some (op0.getD env.tempDir)) hnb (by simpa using hpre) (by simpa using hcr)
    simpa using h
  · intro hm0
    simp [fileInit, hm0, getFile_ok env opts.pre ⟨fs0, op0⟩ ct e hext hperm]
  · intro r opts2 input fs rest m hread hres herr
    constructor <;>
      simp [FormDataReader.read, FormDataReader.stream, hread, hres, herr]

/-- Witness for file_too_large_eager_and_closed: with maxFileSize 5, a six
byte line crosses the limit; from the in-memory start the decode fails with
the file-too-large error and no file is left open, and a read of a whole
body with that part surfaces the same failure. -/
theorem file_too_large_eager_and_closed_witness :
    (∃ st2 : MState,
      filePartLoop exEnv ⟨encodeStr "--B--", encodeStr "--B", 5, 10, none, none⟩
        "f" "t/p" none [encodeStr "toolong" ++ crlf, encodeStr "--B--" ++ crlf] 0
        (some []) none none ⟨⟨[]⟩, none⟩ =
        .fail (.requestEntityTooLarge "File size exceeds limit of 5 bytes.") st2 ∧
      (FileSys.allClosed ⟨[]⟩ → st2.fs.allClosed)) ∧
    (FormDataReader.read exEnv exReader { maxFileSize := some 5, maxSize := some 10 }
        [encodeStr "--B" ++ crlf,
          encodeStr "content-disposition: form-data; name=\"f\"" ++ crlf,
          encodeStr "content-type: t/p" ++ crlf,
          crlf,
          encodeStr "toolong" ++ crlf,
          encodeStr "--B--" ++ crlf] ⟨[]⟩).result =
      .error (.requestEntityTooLarge "File size exceeds limit of 5 bytes.") := by
  constructor
  · exact (file_too_large_eager_and_closed exEnv
      ⟨encodeStr "--B--", encodeStr "--B", 5, 10, none, none⟩ "f" "t/p" none
      (encodeStr "toolong" ++ crlf) [encodeStr "--B--" ++ crlf] [] "bin" ⟨[]⟩ none
      (by decide) (by decide) rfl rfl (by decide) (by decide)).1
  · exact ((file_too_large_eager_and_closed exEnv
      ⟨encodeStr "--B--", encodeStr "--B", 5, 10, none, none⟩ "f" "t/p" none
      (encodeStr "toolong" ++ crlf) [encodeStr "--B--" ++ crlf] [] "bin" ⟨[]⟩ none
      (by decide) (by decide) rfl rfl (by decide) (by decide)).2.2.2 exReader
      { maxFileSize := some 5, maxSize := some 10 }
      [encodeStr "--B" ++ crlf,
        encodeStr "content-disposition: form-data; name=\"f\"" ++ crlf,
        encodeStr "content-type: t/p" ++ crlf,
        crlf,
        encodeStr "toolong" ++ crlf,
        encodeStr "--B--" ++ crlf] ⟨[]⟩
      [encodeStr "content-disposition: form-data; name=\"f\"" ++ crlf,
        encodeStr "content-type: t/p" ++ crlf,
        crlf,
        encodeStr "toolong" ++ crlf,
        encodeStr "--B--" ++ crlf]
      "File size exceeds limit of 5 bytes." rfl (by decide) (by decide)).1

/-- C9: whether a declared media type is acceptable depends on the storage
policy: whenever a storage file must be created (maxSize is zero, or the
byte count exceeds a positive maxSize) and no extension can be derived from
the media type, the decode fails with the invalid-media-type bad request;
the same part decodes from memory whenever its bytes never exceed a
positive maxSize. -/
theorem invalid_media_type_depends_on_storage (env : Env) (opts : PartsOptions)
    (name ct : String) (on0 : Option String) (st : MState)
    (hext : env.ext ct = none) :
    (opts.maxSize = 0 →
      fileInit env opts ct st = .error (.badRequest "Invalid media type for part")) ∧
    (∀ (contentLines : List Bytes) (rest2 : List Bytes),
      (∀ l ∈ contentLines, noBoundaryLine opts.part opts.final l) →
      contentLines.flatten.length > opts.maxSize →
      contentLines.flatten.length ≤ opts.maxFileSize →
      filePartLoop env opts name ct on0 (contentLines ++ rest2) 0 (some []) none
        none st =
        .fail (.badRequest "Invalid media type for part") st) ∧
    (∀ (contentLines : List Bytes) (bLine : Bytes) (rest : List Bytes),
      (∀ l ∈ contentLines, noBoundaryLine opts.part opts.final l) →
      (isEqual (stripEol bLine) opts.part = true ∨
        isEqual (stripEol bLine) opts.final = true) →
      contentLines.flatten.length ≤ opts.maxSize →
      contentLines.flatten.length ≤ opts.maxFileSize →
      filePartLoop env opts name ct on0 (contentLines ++ bLine :: rest) 0 (some [])
        none none st =
      (if isEqual (stripEol bLine) opts.final then
        LoopOut.last (name, .file ⟨some contentLines.flatten, ct, none, name, on0⟩)
          rest st
      else
        LoopOut.more (name, .file ⟨some contentLines.flatten, ct, none, name, on0⟩)
          rest st)) := by
  refine ⟨?_, ?_, ?_⟩
  · intro hm0
    simp [fileInit, hm0, getFile_extfail env opts.pre st ct hext]
  · intro contentLines rest2 hnb hcross hmf
    have h := filePartLoop_spill_extfail env opts name ct on0 hext contentLines
      rest2 [] none st.fs st.outPath hnb (by simp) (by simpa using hcross)
      (by simpa using hmf)
    simpa using h
  · intro contentLines bLine rest hnb hb hms hmf
    have h := filePartLoop_mem_yield env opts name ct on0 bLine rest hb contentLines
      [] none st hnb (by simpa using hms) (by simpa using hmf)
    simpa using h

/-- Witness for invalid_media_type_depends_on_storage in an environment
without known extensions: with maxSize 0 the part fails at once, with
maxSize 10 a 14 byte part fails at the spill, and a 4 byte part decodes
from memory. -/
theorem invalid_media_type_depends_on_storage_witness :
    fileInit exEnvNoExt ⟨encodeStr "--B--", encodeStr "--B", 100, 0, none, none⟩
        "t/p" ⟨⟨[]⟩, none⟩ = .error (.badRequest "Invalid media type for part") ∧
    filePartLoop exEnvNoExt exOpts "f" "t/p" none
        [encodeStr "0123456789AB" ++ crlf, encodeStr "--B--" ++ crlf] 0 (some [])
        none none ⟨⟨[]⟩, none⟩ =
      .fail (.badRequest "Invalid media type for part") ⟨⟨[]⟩, none⟩ ∧
    filePartLoop exEnvNoExt exOpts "f" "t/p" none
        [encodeStr "hi" ++ crlf, encodeStr "--B--" ++ crlf] 0 (some []) none none
        ⟨⟨[]⟩, none⟩ =
      LoopOut.last ("f", .file ⟨some (encodeStr "hi" ++ crlf), "t/p", none, "f", none⟩)
        [] ⟨⟨[]⟩, none⟩ := by
  refine ⟨?_, ?_, ?_⟩
  · exact (invalid_media_type_depends_on_storage exEnvNoExt
      ⟨encodeStr "--B--", encodeStr "--B", 100, 0, none, none⟩ "f" "t/p" none
      ⟨⟨[]⟩, none⟩ rfl).1 rfl
  · exact ((invalid_media_type_depends_on_storage exEnvNoExt exOpts "f" "t/p" none
      ⟨⟨[]⟩, none⟩ rfl).2.1 [encodeStr "0123456789AB" ++ crlf]
      [encodeStr "--B--" ++ crlf] (by decide) (by decide) (by decide))
  · exact ((invalid_media_type_depends_on_storage exEnvNoExt exOpts "f" "t/p" none
      ⟨⟨[]⟩, none⟩ rfl).2.2 [encodeStr "hi" ++ crlf] (encodeStr "--B--" ++ crlf) []
      (by decide) (by decide) (by decide) (by decide)).trans (by decide)

theorem readToStartOrEnd_err (input : List Bytes) (s eB : Bytes) (e : Err)
    (h : readToStartOrEnd input s eB = .error e) :
    e = .badRequest "Unable to find multi-part boundary." := by
  induction input with
  | nil =>
    simp only [readToStartOrEnd] at h
    cases h
    rfl
  | cons line tl ih =>
    simp only [readToStartOrEnd] at h
    split at h
    · cases h
    · split at h
      · cases h
      · exact ih h

/-- C1 counterexample: decoding this body raises the storage permission
failure (the parts run ends with the permission-denied error), yet the lazy
consumption method does not propagate it like any other error: stream ends
with no error after yielding the parts read before the failure, exactly as
read does. -/
theorem stream_swallows_permission_denied :
    (partsRun exEnvDenied (toPartsOptions exReader {}) (exPermBody.drop 1) ⟨[]⟩).err =
      some .permissionDenied ∧
    (FormDataReader.stream exEnvDenied exReader {} exPermBody ⟨[]⟩).err = none ∧
    (FormDataReader.stream exEnvDenied exReader {} exPermBody ⟨[]⟩).yielded =
      [("a", .field "hello")] ∧
    (FormDataReader.read exEnvDenied exReader {} exPermBody ⟨[]⟩).result =
      .ok ⟨[("a", "hello")], none⟩ := by
  refine ⟨by decide, by decide, by decide, by decide⟩

/-- C1 (amended): a storage permission failure during file creation is
recovered by both consumption methods, not only by read: read returns the
partial FormDataBody aggregated from the parts yielded before the failure,
stream ends with the yielded prefix and no error reaches its caller, the
permission-denied error never surfaces from either method, and every other
failure of the parts run propagates out of both. -/
theorem permission_denied_recovered_in_both_modes (env : Env) (r : FormDataReader)
    (opts : FormDataReadOptions) (input : List Bytes) (fs : FileSys)
    (rest : List Bytes) (hread : r.reading = false)
    (hres : readToStartOrEnd input r.boundaryPart r.boundaryFinal = .ok (true, rest)) :
    ((partsRun env (toPartsOptions r opts) rest fs).err = some .permissionDenied →
      (FormDataReader.read env r opts input fs).result =
        .ok (aggregate (partsRun env (toPartsOptions r opts) rest fs).yielded
          ⟨[], none⟩) ∧
      (FormDataReader.stream env r opts input fs).err = none ∧
      (FormDataReader.stream env r opts input fs).yielded =
        (partsRun env (toPartsOptions r opts) rest fs).yielded) ∧
    (∀ e : Err, (partsRun env (toPartsOptions r opts) rest fs).err = some e →
      e ≠ .permissionDenied →
      (FormDataReader.read env r opts input fs).result = .error e ∧
      (FormDataReader.stream env r opts input fs).err = some e) ∧
    (∀ (env2 : Env) (r2 : FormDataReader) (opts2 : FormDataReadOptions)
        (input2 : List Bytes) (fs2 : FileSys),
      (FormDataReader.read env2 r2 opts2 input2 fs2).result ≠
        .error .permissionDenied ∧
      (FormDataReader.stream env2 r2 opts2 input2 fs2).err ≠
        some .permissionDenied) := by
  refine ⟨?_, ?_, ?_⟩
  · intro herr
    refine ⟨?_, ?_, ?_⟩ <;>
      simp [FormDataReader.read, FormDataReader.stream, hread, hres, herr]
  · intro e herr hne
    cases e with
    | permissionDenied => exact absurd rfl hne
    | badRequest m =>
      constructor <;>
        simp [FormDataReader.read, FormDataReader.stream, hread, hres, herr]
    | requestEntityTooLarge m =>
      constructor <;>
        simp [FormDataReader.read, FormDataReader.stream, hread, hres, herr]
    | alreadyReading =>
      constructor <;>
        simp [FormDataReader.read, FormDataReader.stream, hread, hres, herr]
  · intro env2 r2 opts2 input2 fs2
    constructor
    · by_cases hr : r2.reading = true
      · simp [FormDataReader.read, hr]
      · unfold FormDataReader.read
        rw [if_neg hr]
        split
        · next e heq =>
            have he := readToStartOrEnd_err _ _ _ _ heq
            simp [he]
        · simp
        · next rst heq =>
            dsimp only
            cases herr2 : (partsRun env2 (toPartsOptions r2 opts2) rst fs2).err with
            | none => simp [herr2]
            | some e => cases e <;> simp [herr2]
    · by_cases hr : r2.reading = true
      · simp [FormDataReader.stream, hr]
      · unfold FormDataReader.stream
        rw [if_neg hr]
        split
        · next e heq =>
            have he := readToStartOrEnd_err _ _ _ _ heq
            simp [he]
        · simp
        · next rst heq =>
            dsimp only
            cases herr2 : (partsRun env2 (toPartsOptions r2 opts2) rst fs2).err with
            | none => simp [herr2]
            | some e => cases e <;> simp [herr2]

/-- Witness for permission_denied_recovered_in_both_modes on the body whose
second part hits the denied storage. -/
theorem permission_denied_recovered_in_both_modes_witness :
    (FormDataReader.read exEnvDenied exReader {} exPermBody ⟨[]⟩).result =
      .ok (aggregate (partsRun exEnvDenied (toPartsOptions exReader {})
        (exPermBody.drop 1) ⟨[]⟩).yielded ⟨[], none⟩) ∧
    (FormDataReader.stream exEnvDenied exReader {} exPermBody ⟨[]⟩).err = none :=
  ⟨((permission_denied_recovered_in_both_modes exEnvDenied exReader {} exPermBody
      ⟨[]⟩ (exPermBody.drop 1) rfl (by decide)).1 (by decide)).1,
    ((permission_denied_recovered_in_both_modes exEnvDenied exReader {} exPermBody
      ⟨[]⟩ (exPermBody.drop 1) rfl (by decide)).1 (by decide)).2.1⟩

theorem encodeStr_append (a b : String) :
    encodeStr (a ++ b) = encodeStr a ++ encodeStr b := by
  simp [encodeStr, String.data_append]

theorem decodeBytes_encodeStr (s : String) : decodeBytes (encodeStr s) = s := by
  simp only [decodeBytes, encodeStr, List.map_map]
  have h : (Char.ofNat ∘ Char.toNat) = id := by
    funext c
    exact Char.ofNat_toNat c
  rw [h, List.map_id]

theorem decodeBytes_append (a b : Bytes) :
    decodeBytes (a ++ b) = decodeBytes a ++ decodeBytes b := by
  simp only [decodeBytes, List.map_append]
  rfl

theorem stripEol_concat_crlf (x : Bytes) : stripEol (x ++ [13, 10]) = x := by
  have h1 : x ++ [13, 10] = (x ++ [13]) ++ [10] := by simp
  rw [stripEol, h1, List.getLast?_concat, List.dropLast_concat]
  simp [List.getLast?_concat]

theorem stripEol_concat_lf (y : Bytes) (h13 : (13 : Nat) ∉ y) :
    stripEol (y ++ [10]) = y := by
  rw [stripEol, List.getLast?_concat, List.dropLast_concat]
  rcases List.eq_nil_or_concat y with hy | ⟨z, d, hy⟩
  · simp [hy]
  · rw [hy] at h13 ⊢
    have hd : d ≠ 13 := by
      intro h
      exact h13 (by simp [h, List.concat_eq_append])
    simp [List.concat_eq_append, List.getLast?_concat, hd]

theorem stripEol_concat2 (w : Bytes) (d : Nat) :
    stripEol ((w ++ [d]) ++ [10]) = if d = 13 then w else w ++ [d] := by
  rw [stripEol, List.getLast?_concat, List.dropLast_concat, List.getLast?_concat]
  by_cases hd : d = 13 <;> simp [hd, List.dropLast_concat]

theorem stripEol_cons (c : Nat) (l : Bytes) (hne : l ≠ [])
    (hc : ¬(c = 13 ∧ l = [10])) :
    stripEol (c :: l) = c :: stripEol l := by
  rcases List.eq_nil_or_concat l with hl | ⟨y, a, hl⟩
  · exact absurd hl hne
  rw [List.concat_eq_append] at hl
  subst hl
  by_cases ha : a = 10
  · subst ha
    rcases List.eq_nil_or_concat y with hy | ⟨z, d, hy⟩
    · subst hy
      have hc13 : c ≠ 13 := fun h => hc ⟨h, by simp⟩
      have hcl : c :: (([] : Bytes) ++ [10]) = (([c] : Bytes)) ++ [10] := by simp
      rw [hcl, stripEol, List.getLast?_concat, List.dropLast_concat, stripEol]
      simp [hc13, List.getLast?_concat]
    · rw [List.concat_eq_append] at hy
      subst hy
      have f0 : c :: (z ++ [d] ++ [10]) = ((c :: z) ++ [d]) ++ [10] := by simp
      rw [f0, stripEol_concat2, stripEol_concat2]
      by_cases hd : d = 13 <;> simp [hd]
  · have hcl : c :: (y ++ [a]) = (c :: y) ++ [a] := by simp
    have hlast1 : (c :: (y ++ [a])).getLast? = some a := by
      rw [hcl, List.getLast?_concat]
    have hlast2 : (y ++ [a]).getLast? = some a := List.getLast?_concat _
    rw [stripEol, stripEol, hlast1, hlast2]
    simp [ha]

theorem splitLines_ne_nil (b : Bytes) (h : b ≠ []) : splitLines b ≠ [] := by
  cases b with
  | nil => exact absurd rfl h
  | cons c rest =>
    by_cases hc : c = 10
    · simp [splitLines, hc]
    · simp only [splitLines, hc, if_false]
      cases splitLines rest <;> simp

theorem splitLines_flatten (b : Bytes) : (splitLines b).flatten = b := by
  induction b with
  | nil => rfl
  | cons c rest ih =>
    by_cases hc : c = 10
    · simp [splitLines, hc, ih]
    · simp only [splitLines, hc, if_false]
      cases h : splitLines rest with
      | nil =>
        rw [h] at ih
        simp at ih
        simp [ih]
      | cons l ls =>
        rw [h] at ih
        simp only [List.flatten_cons] at ih
        simp only [List.flatten_cons, List.cons_append]
        rw [ih]

theorem splitLines_line_ne_nil (b : Bytes) : ∀ l ∈ splitLines b, l ≠ [] := by
  induction b with
  | nil => simp [splitLines]
  | cons c rest ih =>
    by_cases hc : c = 10
    · subst hc
      have h1 : splitLines (10 :: rest) = [10] :: splitLines rest := by
        simp [splitLines]
      rw [h1]
      intro l hl
      rcases List.mem_cons.mp hl with hl | hl
      · simp [hl]
      · exact ih l hl
    · simp only [splitLines, hc, if_false]
      cases h : splitLines rest with
      | nil => simp
      | cons x xs =>
        intro l hl
        rcases List.mem_cons.mp hl with hl | hl
        · subst hl
          simp
        · exact ih l (by simp [h, hl])

theorem joinLF_cons_cons (x y : Bytes) (t : List Bytes) :
    joinLF (x :: y :: t) = x ++ [10] ++ joinLF (y :: t) := rfl

theorem joinLF_cons_head (c : Nat) (z : Bytes) (S : List Bytes) :
    joinLF ((c :: z) :: S) = c :: joinLF (z :: S) := by
  cases S with
  | nil => rfl
  | cons s t => simp [joinLF_cons_cons]

theorem joinLF_stripEol_splitLines (vb : Bytes) (h13 : (13 : Nat) ∉ vb) :
    joinLF ((splitLines (vb ++ [13, 10])).map stripEol) = vb := by
  induction vb with
  | nil => decide
  | cons c vb' ih =>
    have hc13 : c ≠ 13 := fun h => h13 (by simp [h])
    have h13' : (13 : Nat) ∉ vb' := fun h => h13 (by simp [h])
    obtain ⟨l, ls, hS⟩ : ∃ l ls, splitLines (vb' ++ [13, 10]) = l :: ls := by
      cases h : splitLines (vb' ++ [13, 10]) with
      | nil => exact absurd h (splitLines_ne_nil _ (by simp))
      | cons l ls => exact ⟨l, ls, rfl⟩
    by_cases hc : c = 10
    · subst hc
      have h0 : (10 : Nat) :: vb' ++ [13, 10] = 10 :: (vb' ++ [13, 10]) := by simp
      have h1 : splitLines (10 :: (vb' ++ [13, 10])) =
          [10] :: splitLines (vb' ++ [13, 10]) := by
        simp [splitLines]
      have h10 : stripEol [10] = [] := by decide
      rw [h0, h1, hS, List.map_cons, List.map_cons, h10, joinLF_cons_cons]
      have hih := ih h13'
      rw [hS, List.map_cons] at hih
      rw [hih]
      simp
    · have : c :: vb' ++ [13, 10] = c :: (vb' ++ [13, 10]) := by simp
      rw [this, splitLines]
      simp only [hc, if_false, hS]
      have hlne : l ≠ [] := splitLines_line_ne_nil _ l (by rw [hS]; simp)
      have hcl : ¬(c = 13 ∧ l = [10]) := fun h => hc13 h.1
      simp only [List.map_cons]
      rw [stripEol_cons c l hlne hcl, joinLF_cons_head]
      have : stripEol l :: ls.map stripEol = (splitLines (vb' ++ [13, 10])).map stripEol := by
        rw [hS, List.map_cons]
      rw [this, ih h13']

theorem intercalate_go_decode (tl : List Bytes) :
    ∀ accB : Bytes,
      String.intercalate.go (decodeBytes accB) "\n" (tl.map decodeBytes) =
        decodeBytes (joinLF (accB :: tl)) := by
  induction tl with
  | nil => intro accB; rfl
  | cons b t ih =>
    intro accB
    have hstep : String.intercalate.go (decodeBytes accB) "\n"
        ((b :: t).map decodeBytes) =
        String.intercalate.go (decodeBytes accB ++ "\n" ++ decodeBytes b) "\n"
          (t.map decodeBytes) := rfl
    rw [hstep]
    have hdec : decodeBytes accB ++ "\n" ++ decodeBytes b =
        decodeBytes ((accB ++ [10]) ++ b) := by
      rw [decodeBytes_append, decodeBytes_append]
      rfl
    rw [hdec, ih ((accB ++ [10]) ++ b)]
    congr 1
    cases t with
    | nil => simp [joinLF]
    | cons s t2 =>
      rw [joinLF_cons_cons, joinLF_cons_cons, joinLF_cons_cons]
      simp [List.append_assoc]

theorem intercalate_decode_joinLF (bls : List Bytes) :
    String.intercalate "\n" (bls.map decodeBytes) = decodeBytes (joinLF bls) := by
  cases bls with
  | nil => rfl
  | cons b t =>
    have : String.intercalate "\n" ((b :: t).map decodeBytes) =
        String.intercalate.go (decodeBytes b) "\n" (t.map decodeBytes) := rfl
    rw [this, intercalate_go_decode t b]

theorem splitOnByte_ne_nil (sep : Nat) (b : Bytes) : splitOnByte sep b ≠ [] := by
  cases b with
  | nil => simp [splitOnByte]
  | cons c rest =>
    by_cases hc : c = sep
    · simp [splitOnByte, hc]
    · simp only [splitOnByte, hc, if_false]
      cases splitOnByte sep rest <;> simp

theorem splitOnByte_no_sep (sep : Nat) (a : Bytes) (h : sep ∉ a) :
    splitOnByte sep a = [a] := by
  induction a with
  | nil => rfl
  | cons c rest ih =>
    have hc : c ≠ sep := fun hx => h (by simp [hx])
    have hcs : ¬(c = sep) := hc
    simp only [splitOnByte, hcs, if_false]
    rw [ih (fun hx => h (by simp [hx]))]

theorem splitOnByte_append_sep (sep : Nat) (a b : Bytes) (h : sep ∉ a) :
    splitOnByte sep (a ++ sep :: b) = a :: splitOnByte sep b := by
  induction a with
  | nil => simp [splitOnByte]
  | cons c rest ih =>
    have hc : ¬(c = sep) := fun hx => h (by simp [hx])
    simp only [List.cons_append, splitOnByte, hc, if_false, List.append_eq]
    rw [ih (fun hx => h (by simp [hx]))]

theorem intercalate_splitOnByte (sep : Nat) (x : Bytes) :
    List.intercalate [sep] (splitOnByte sep x) = x := by
  induction x with
  | nil => rfl
  | cons c rest ih =>
    by_cases hc : c = sep
    · subst hc
      simp only [splitOnByte, if_pos rfl]
      obtain ⟨l, ls, hS⟩ : ∃ l ls, splitOnByte c rest = l :: ls := by
        cases h : splitOnByte c rest with
        | nil => exact absurd h (splitOnByte_ne_nil c rest)
        | cons l ls => exact ⟨l, ls, rfl⟩
      rw [hS]
      rw [hS] at ih
      simp only [List.intercalate, List.intersperse] at ih ⊢
      cases ls <;> simp_all
    · simp only [splitOnByte, hc, if_false]
      obtain ⟨l, ls, hS⟩ : ∃ l ls, splitOnByte sep rest = l :: ls := by
        cases h : splitOnByte sep rest with
        | nil => exact absurd h (splitOnByte_ne_nil sep rest)
        | cons l ls => exact ⟨l, ls, rfl⟩
      rw [hS]
      rw [hS] at ih
      simp only [List.intercalate, List.intersperse] at ih ⊢
      cases ls <;> simp_all

theorem takeWhile_ne_sep (sep : Nat) (a b : Bytes) (h : sep ∉ a) :
    (a ++ sep :: b).takeWhile (fun c => decide (c ≠ sep)) = a := by
  induction a with
  | nil => simp [List.takeWhile]
  | cons c rest ih =>
    have hc : c ≠ sep := fun hx => h (by simp [hx])
    have hdec : decide (c ≠ sep) = true := by simp [hc]
    simp only [List.cons_append, List.takeWhile_cons, hdec, if_true]
    rw [ih (fun hx => h (by simp [hx]))]

theorem drop_len_succ (sep : Nat) (a b : Bytes) :
    (a ++ sep :: b).drop (a.length + 1) = b := by
  have h1 : a ++ sep :: b = (a ++ [sep]) ++ b := by simp
  have h2 : a.length + 1 = (a ++ [sep]).length := by simp
  rw [h1, h2, List.drop_left]

theorem parseHeaderLine_split (k v : Bytes) (hk : (58 : Nat) ∉ k) :
    parseHeaderLine (k ++ 58 :: v) = some (toLowerB (trimB k), trimB v) := by
  have ht := takeWhile_ne_sep 58 k v hk
  have hlen : ¬(k.length = (k ++ 58 :: v).length) := by
    simp
  simp only [parseHeaderLine, ht, hlen, if_false, drop_len_succ]

theorem trimB_cons_ws (c : Nat) (b : Bytes) (h : isWsByte c = true) :
    trimB (c :: b) = trimB b := by
  simp [trimB, List.dropWhile_cons, h]

theorem trimB_of_head_last (b : Bytes) (c d : Nat) (hh : b.head? = some c)
    (hc : isWsByte c = false) (hl : b.getLast? = some d) (hd : isWsByte d = false) :
    trimB b = b := by
  have h1 : b.dropWhile isWsByte = b := by
    cases b with
    | nil => simp at hh
    | cons x t =>
      have : x = c := by simpa using hh
      subst this
      simp [List.dropWhile_cons, hc]
  rcases List.eq_nil_or_concat b with hb | ⟨y, a, hb⟩
  · simp [hb, trimB]
  rw [List.concat_eq_append] at hb
  have ha : a = d := by
    rw [hb, List.getLast?_concat] at hl
    simpa using hl
  subst ha
  have h2 : b.reverse.dropWhile isWsByte = b.reverse := by
    rw [hb]
    simp only [List.reverse_append, List.reverse_cons, List.reverse_nil,
      List.nil_append, List.singleton_append, List.dropWhile_cons, hd]
    simp
  rw [trimB, h1, h2, List.reverse_reverse]

theorem unescapeB_no_escape : ∀ (x : Bytes), (92 : Nat) ∉ x → unescapeB x = x := by
  intro x
  induction x with
  | nil => intro h; rfl
  | cons c rest ih =>
    intro h
    rw [unescapeB.eq_def]
    dsimp only
    rw [if_neg (by intro hc; exact h (by simp [hc]))]
    rw [ih (by intro hm; exact h (by simp [hm]))]

theorem unquoteB_quoteB (x : Bytes) (h92 : (92 : Nat) ∉ x) :
    unquoteB (quoteB x) = x := by
  simp only [quoteB, unquoteB, List.getLast?_concat]
  simp [List.dropLast_concat, unescapeB_no_escape x h92]

theorem not_mem_quoteB (x : Nat) (nb : Bytes) (hx34 : x ≠ 34)
    (hnb : x ∉ nb) : x ∉ quoteB nb := by
  intro hmem
  rcases List.mem_cons.mp hmem with h | h
  · exact hx34 h
  · rcases List.mem_append.mp h with h | h
    · exact hnb h
    · rcases List.mem_cons.mp h with h | h
      · exact hx34 h
      · simp at h

theorem headerSafe_no59 (nb : Bytes) (hn : headerSafe nb) : (59 : Nat) ∉ nb :=
  fun h => absurd rfl (hn 59 h).2.2.2.1

theorem headerSafe_no92 (nb : Bytes) (hn : headerSafe nb) : (92 : Nat) ∉ nb :=
  fun h => absurd rfl (hn 92 h).2.2.2.2

theorem trimB_quoteB (nb : Bytes) : trimB (quoteB nb) = quoteB nb := by
  refine trimB_of_head_last _ 34 34 (by simp [quoteB]) (by decide) ?_ (by decide)
  rw [quoteB, show ((34 : Nat) :: (nb ++ [34])) = ((34 :: nb) ++ [34]) from by simp,
    List.getLast?_concat]

theorem splitOnByte_cons_of_ne_nil (sep : Nat) (b : Bytes) :
    ∃ v1 vs, splitOnByte sep b = v1 :: vs := by
  cases h : splitOnByte sep b with
  | nil => exact absurd h (splitOnByte_ne_nil sep b)
  | cons v1 vs => exact ⟨v1, vs, rfl⟩

theorem paramValue_name_fld (nb : Bytes) (hn : headerSafe nb) :
    paramValue (encodeStr "name") (encodeStr "form-data; name=" ++ quoteB nb) =
      some (quoteB nb) := by
  have h59q : (59 : Nat) ∉ quoteB nb :=
    not_mem_quoteB 59 nb (by decide) (headerSafe_no59 nb hn)
  have hB : encodeStr "form-data; name=" ++ quoteB nb =
      encodeStr "form-data" ++ 59 :: (encodeStr " name" ++ 61 :: quoteB nb) := by
    have h0 : encodeStr "form-data; name=" =
        encodeStr "form-data" ++ 59 :: (encodeStr " name" ++ [61]) := by decide
    rw [h0]
    simp
  have hno : (59 : Nat) ∉ encodeStr " name" ++ 61 :: quoteB nb := by
    intro hmem
    rcases List.mem_append.mp hmem with h | h
    · exact absurd h (by decide)
    · rcases List.mem_cons.mp h with h | h
      · exact absurd h (by decide)
      · exact h59q h
  have hsplit : splitOnByte 59 (encodeStr "form-data; name=" ++ quoteB nb) =
      [encodeStr "form-data", encodeStr " name" ++ 61 :: quoteB nb] := by
    rw [hB, splitOnByte_append_sep 59 _ _ (by decide), splitOnByte_no_sep 59 _ hno]
  have e1 : splitOnByte 61 (encodeStr "form-data") = [encodeStr "form-data"] :=
    splitOnByte_no_sep _ _ (by decide)
  have e2 : splitOnByte 61 (encodeStr " name" ++ 61 :: quoteB nb) =
      encodeStr " name" :: splitOnByte 61 (quoteB nb) :=
    splitOnByte_append_sep _ _ _ (by decide)
  obtain ⟨v1, vs, hv⟩ := splitOnByte_cons_of_ne_nil 61 (quoteB nb)
  have e3 : List.intercalate [61] (v1 :: vs) = quoteB nb := by
    rw [← hv]
    exact intercalate_splitOnByte _ _
  have e5 : (toLowerB (trimB (encodeStr " name")) == encodeStr "name") = true := by
    decide
  simp only [paramValue, hsplit, List.findSome?_cons, e1, e2, hv, e3, e5, if_true,
    trimB_quoteB]

theorem getFilename_fld (nb : Bytes) (hn : headerSafe nb) :
    getFilename (encodeStr "form-data; name=" ++ quoteB nb) = none := by
  have h59q : (59 : Nat) ∉ quoteB nb :=
    not_mem_quoteB 59 nb (by decide) (headerSafe_no59 nb hn)
  have hB : encodeStr "form-data; name=" ++ quoteB nb =
      encodeStr "form-data" ++ 59 :: (encodeStr " name" ++ 61 :: quoteB nb) := by
    have h0 : encodeStr "form-data; name=" =
        encodeStr "form-data" ++ 59 :: (encodeStr " name" ++ [61]) := by decide
    rw [h0]
    simp
  have hno : (59 : Nat) ∉ encodeStr " name" ++ 61 :: quoteB nb := by
    intro hmem
    rcases List.mem_append.mp hmem with h | h
    · exact absurd h (by decide)
    · rcases List.mem_cons.mp h with h | h
      · exact absurd h (by decide)
      · exact h59q h
  have hsplit : splitOnByte 59 (encodeStr "form-data; name=" ++ quoteB nb) =
      [encodeStr "form-data", encodeStr " name" ++ 61 :: quoteB nb] := by
    rw [hB, splitOnByte_append_sep 59 _ _ (by decide), splitOnByte_no_sep 59 _ hno]
  have e1 : splitOnByte 61 (encodeStr "form-data") = [encodeStr "form-data"] :=
    splitOnByte_no_sep _ _ (by decide)
  have e2 : splitOnByte 61 (encodeStr " name" ++ 61 :: quoteB nb) =
      encodeStr " name" :: splitOnByte 61 (quoteB nb) :=
    splitOnByte_append_sep _ _ _ (by decide)
  obtain ⟨v1, vs, hv⟩ := splitOnByte_cons_of_ne_nil 61 (quoteB nb)
  have e5 : (toLowerB (trimB (encodeStr " name")) == encodeStr "filename") = false := by
    decide
  simp only [getFilename, paramValue, hsplit, List.findSome?_cons, e1, e2, hv, e5,
    if_false, List.findSome?_nil]
  simp

theorem cdvFil_decomp (nb fb : Bytes) :
    encodeStr "form-data; name=" ++ quoteB nb ++ encodeStr "; filename=" ++ quoteB fb =
      encodeStr "form-data" ++ 59 :: ((encodeStr " name" ++ 61 :: quoteB nb) ++
        59 :: (encodeStr " filename" ++ 61 :: quoteB fb)) := by
  have h0 : encodeStr "form-data; name=" =
      encodeStr "form-data" ++ 59 :: (encodeStr " name" ++ [61]) := by decide
  have h1 : encodeStr "; filename=" = 59 :: (encodeStr " filename" ++ [61]) := by
    decide
  rw [h0, h1]
  simp

theorem paramValue_name_fil (nb fb : Bytes) (hn : headerSafe nb)
    (hf : headerSafe fb) :
    paramValue (encodeStr "name")
      (encodeStr "form-data; name=" ++ quoteB nb ++ encodeStr "; filename=" ++
        quoteB fb) = some (quoteB nb) := by
  have h59q : (59 : Nat) ∉ quoteB nb :=
    not_mem_quoteB 59 nb (by decide) (headerSafe_no59 nb hn)
  have h59f : (59 : Nat) ∉ quoteB fb :=
    not_mem_quoteB 59 fb (by decide) (headerSafe_no59 fb hf)
  have hno1 : (59 : Nat) ∉ encodeStr " name" ++ 61 :: quoteB nb := by
    intro hmem
    rcases List.mem_append.mp hmem with h | h
    · exact absurd h (by decide)
    · rcases List.mem_cons.mp h with h | h
      · exact absurd h (by decide)
      · exact h59q h
  have hno2 : (59 : Nat) ∉ encodeStr " filename" ++ 61 :: quoteB fb := by
    intro hmem
    rcases List.mem_append.mp hmem with h | h
    · exact absurd h (by decide)
    · rcases List.mem_cons.mp h with h | h
      · exact absurd h (by decide)
      · exact h59f h
  have hsplit : splitOnByte 59 (encodeStr "form-data; name=" ++ quoteB nb ++
      encodeStr "; filename=" ++ quoteB fb) =
      [encodeStr "form-data", encodeStr " name" ++ 61 :: quoteB nb,
        encodeStr " filename" ++ 61 :: quoteB fb] := by
    rw [cdvFil_decomp, splitOnByte_append_sep 59 _ _ (by decide),
      splitOnByte_append_sep 59 _ _ hno1, splitOnByte_no_sep 59 _ hno2]
  have e1 : splitOnByte 61 (encodeStr "form-data") = [encodeStr "form-data"] :=
    splitOnByte_no_sep _ _ (by decide)
  have e2 : splitOnByte 61 (encodeStr " name" ++ 61 :: quoteB nb) =
      encodeStr " name" :: splitOnByte 61 (quoteB nb) :=
    splitOnByte_append_sep _ _ _ (by decide)
  obtain ⟨v1, vs, hv⟩ := splitOnByte_cons_of_ne_nil 61 (quoteB nb)
  have e3 : List.intercalate [61] (v1 :: vs) = quoteB nb := by
    rw [← hv]
    exact intercalate_splitOnByte _ _
  have e5 : (toLowerB (trimB (encodeStr " name")) == encodeStr "name") = true := by
    decide
  simp only [paramValue, hsplit, List.findSome?_cons, e1, e2, hv, e3, e5, if_true,
    trimB_quoteB]

theorem getFilename_fil (nb fb : Bytes) (hn : headerSafe nb) (hf : headerSafe fb) :
    getFilename (encodeStr "form-data; name=" ++ quoteB nb ++
      encodeStr "; filename=" ++ quoteB fb) = some fb := by
  have h59q : (59 : Nat) ∉ quoteB nb :=
    not_mem_quoteB 59 nb (by decide) (headerSafe_no59 nb hn)
  have h59f : (59 : Nat) ∉ quoteB fb :=
    not_mem_quoteB 59 fb (by decide) (headerSafe_no59 fb hf)
  have hno1 : (59 : Nat) ∉ encodeStr " name" ++ 61 :: quoteB nb := by
    intro hmem
    rcases List.mem_append.mp hmem with h | h
    · exact absurd h (by decide)
    · rcases List.mem_cons.mp h with h | h
      · exact absurd h (by decide)
      · exact h59q h
  have hno2 : (59 : Nat) ∉ encodeStr " filename" ++ 61 :: quoteB fb := by
    intro hmem
    rcases List.mem_append.mp hmem with h | h
    · exact absurd h (by decide)
    · rcases List.mem_cons.mp h with h | h
      · exact absurd h (by decide)
      · exact h59f h
  have hsplit : splitOnByte 59 (encodeStr "form-data; name=" ++ quoteB nb ++
      encodeStr "; filename=" ++ quoteB fb) =
      [encodeStr "form-data", encodeStr " name" ++ 61 :: quoteB nb,
        encodeStr " filename" ++ 61 :: quoteB fb] := by
    rw [cdvFil_decomp, splitOnByte_append_sep 59 _ _ (by decide),
      splitOnByte_append_sep 59 _ _ hno1, splitOnByte_no_sep 59 _ hno2]
  have e1 : splitOnByte 61 (encodeStr "form-data") = [encodeStr "form-data"] :=
    splitOnByte_no_sep _ _ (by decide)
  have e2 : splitOnByte 61 (encodeStr " name" ++ 61 :: quoteB nb) =
      encodeStr " name" :: splitOnByte 61 (quoteB nb) :=
    splitOnByte_append_sep _ _ _ (by decide)
  have e2f : splitOnByte 61 (encodeStr " filename" ++ 61 :: quoteB fb) =
      encodeStr " filename" :: splitOnByte 61 (quoteB fb) :=
    splitOnByte_append_sep _ _ _ (by decide)
  obtain ⟨v1, vs, hv⟩ := splitOnByte_cons_of_ne_nil 61 (quoteB nb)
  obtain ⟨w1, ws, hw⟩ := splitOnByte_cons_of_ne_nil 61 (quoteB fb)
  have e3f : List.intercalate [61] (w1 :: ws) = quoteB fb := by
    rw [← hw]
    exact intercalate_splitOnByte _ _
  have e5 : (toLowerB (trimB (encodeStr " name")) == encodeStr "filename") = false := by
    decide
  have e6 : (toLowerB (trimB (encodeStr " filename")) == encodeStr "filename") = true := by
    decide
  simp only [getFilename, paramValue, hsplit, List.findSome?_cons, e1, e2, e2f, hv,
    hw, e3f, e5, e6, if_false, if_true, trimB_quoteB]
  simp [unquoteB_quoteB fb (headerSafe_no92 fb hf)]

theorem isWsByte_false_of (c : Nat) (h1 : 33 ≤ c) : isWsByte c = false := by
  simp only [isWsByte, Bool.or_eq_false_iff, beq_eq_false_iff_ne]
  refine ⟨⟨⟨?_, ?_⟩, ?_⟩, ?_⟩ <;> omega

theorem trimB_token (b : Bytes) (hne : b ≠ []) (htok : tokenSafe b) : trimB b = b := by
  obtain ⟨c, t, hb⟩ : ∃ c t, b = c :: t := by
    cases b with
    | nil => exact absurd rfl hne
    | cons c t => exact ⟨c, t, rfl⟩
  rcases List.eq_nil_or_concat b with hb2 | ⟨y, d, hb2⟩
  · exact absurd hb2 hne
  rw [List.concat_eq_append] at hb2
  refine trimB_of_head_last b c d (by rw [hb]; rfl) ?_ (by rw [hb2]; exact List.getLast?_concat _) ?_
  · exact isWsByte_false_of c (htok c (by rw [hb]; simp)).1
  · exact isWsByte_false_of d (htok d (by rw [hb2]; simp)).1

theorem stripEol_crlf_nil : stripEol crlf = [] := by decide

theorem readHeaders_fld (n : String) (body : List Bytes) :
    readHeaders (cdFieldLine n :: crlf :: body) =
      .ok ([(encodeStr "content-disposition",
        encodeStr "form-data; name=" ++ quoteB (encodeStr n))], body) := by
  have hline : stripEol (cdFieldLine n) =
      encodeStr "content-disposition" ++ 58 ::
        (32 :: (encodeStr "form-data; name=" ++ quoteB (encodeStr n))) := by
    have h1 : cdFieldLine n =
        (encodeStr "content-disposition" ++ 58 ::
          (32 :: (encodeStr "form-data; name=" ++ quoteB (encodeStr n)))) ++ [13, 10] := by
      rw [cdFieldLine, crlf]
      simp
    rw [h1, stripEol_concat_crlf]
  have hemp : (encodeStr "content-disposition" ++ 58 ::
      (32 :: (encodeStr "form-data; name=" ++ quoteB (encodeStr n)))).isEmpty = false := by
    rw [List.isEmpty_eq_false]
    simp
  have hBhead : (encodeStr "form-data; name=" ++ quoteB (encodeStr n)).head? =
      some 102 := by
    have h0 : encodeStr "form-data; name=" =
        102 :: encodeStr "orm-data; name=" := by decide
    rw [h0]
    rfl
  have hBlast : (encodeStr "form-data; name=" ++ quoteB (encodeStr n)).getLast? =
      some 34 := by
    have h0 : encodeStr "form-data; name=" ++ quoteB (encodeStr n) =
        (encodeStr "form-data; name=" ++ 34 :: encodeStr n) ++ [34] := by
      rw [quoteB]
      simp
    rw [h0, List.getLast?_concat]
  have hval : trimB ((32 : Nat) ::
      (encodeStr "form-data; name=" ++ quoteB (encodeStr n))) =
      encodeStr "form-data; name=" ++ quoteB (encodeStr n) := by
    rw [trimB_cons_ws 32 _ (by decide)]
    exact trimB_of_head_last _ 102 34 hBhead (by decide) hBlast (by decide)
  have hparse : parseHeaderLine (encodeStr "content-disposition" ++ 58 ::
      (32 :: (encodeStr "form-data; name=" ++ quoteB (encodeStr n)))) =
      some (encodeStr "content-disposition",
        encodeStr "form-data; name=" ++ quoteB (encodeStr n)) := by
    rw [parseHeaderLine_split _ _ (by decide), hval]
    have hkey : toLowerB (trimB (encodeStr "content-disposition")) =
        encodeStr "content-disposition" := by decide
    rw [hkey]
  show readHeadersAux (cdFieldLine n :: crlf :: body) [] = _
  rw [readHeadersAux]
  simp only [hline, hemp, Bool.false_eq_true, if_false, hparse]
  rw [readHeadersAux]
  simp only [stripEol_crlf_nil, List.isEmpty_nil, if_true]
  rfl

theorem readHeaders_fil (n fn ct : String) (body : List Bytes) :
    readHeaders (cdFileLine n fn :: ctLine ct :: crlf :: body) =
      .ok ([(encodeStr "content-disposition",
        encodeStr "form-data; name=" ++ quoteB (encodeStr n) ++
          encodeStr "; filename=" ++ quoteB (encodeStr fn)),
        (encodeStr "content-type", trimB ((32 : Nat) :: encodeStr ct))], body) := by
  have hline : stripEol (cdFileLine n fn) =
      encodeStr "content-disposition" ++ 58 ::
        (32 :: (encodeStr "form-data; name=" ++ quoteB (encodeStr n) ++
          encodeStr "; filename=" ++ quoteB (encodeStr fn))) := by
    have h1 : cdFileLine n fn =
        (encodeStr "content-disposition" ++ 58 ::
          (32 :: (encodeStr "form-data; name=" ++ quoteB (encodeStr n) ++
            encodeStr "; filename=" ++ quoteB (encodeStr fn)))) ++ [13, 10] := by
      rw [cdFileLine, crlf]
      simp
    rw [h1, stripEol_concat_crlf]
  have hemp : (encodeStr "content-disposition" ++ 58 ::
      (32 :: (encodeStr "form-data; name=" ++ quoteB (encodeStr n) ++
        encodeStr "; filename=" ++ quoteB (encodeStr fn)))).isEmpty = false := by
    rw [List.isEmpty_eq_false]
    simp
  have hBhead : (encodeStr "form-data; name=" ++ quoteB (encodeStr n) ++
      encodeStr "; filename=" ++ quoteB (encodeStr fn)).head? = some 102 := by
    have h0 : encodeStr "form-data; name=" =
        102 :: encodeStr "orm-data; name=" := by decide
    rw [h0]
    rfl
  have hBlast : (encodeStr "form-data; name=" ++ quoteB (encodeStr n) ++
      encodeStr "; filename=" ++ quoteB (encodeStr fn)).getLast? = some 34 := by
    have h0 : encodeStr "form-data; name=" ++ quoteB (encodeStr n) ++
        encodeStr "; filename=" ++ quoteB (encodeStr fn) =
        (encodeStr "form-data; name=" ++ quoteB (encodeStr n) ++
          encodeStr "; filename=" ++ 34 :: encodeStr fn) ++ [34] := by
      rw [quoteB, quoteB]
      simp
    rw [h0, List.getLast?_concat]
  have hval : trimB ((32 : Nat) ::
      (encodeStr "form-data; name=" ++ quoteB (encodeStr n) ++
        encodeStr "; filename=" ++ quoteB (encodeStr fn))) =
      encodeStr "form-data; name=" ++ quoteB (encodeStr n) ++
        encodeStr "; filename=" ++ quoteB (encodeStr fn) := by
    rw [trimB_cons_ws 32 _ (by decide)]
    exact trimB_of_head_last _ 102 34 hBhead (by decide) hBlast (by decide)
  have hparse : parseHeaderLine (encodeStr "content-disposition" ++ 58 ::
      (32 :: (encodeStr "form-data; name=" ++ quoteB (encodeStr n) ++
        encodeStr "; filename=" ++ quoteB (encodeStr fn)))) =
      some (encodeStr "content-disposition",
        encodeStr "form-data; name=" ++ quoteB (encodeStr n) ++
          encodeStr "; filename=" ++ quoteB (encodeStr fn)) := by
    rw [parseHeaderLine_split _ _ (by decide), hval]
    have hkey : toLowerB (trimB (encodeStr "content-disposition")) =
        encodeStr "content-disposition" := by decide
    rw [hkey]
  have hline2 : stripEol (ctLine ct) =
      encodeStr "content-type" ++ 58 :: (32 :: encodeStr ct) := by
    have h1 : ctLine ct =
        (encodeStr "content-type" ++ 58 :: (32 :: encodeStr ct)) ++ [13, 10] := by
      rw [ctLine, crlf]
      simp
    rw [h1, stripEol_concat_crlf]
  have hemp2 : (encodeStr "content-type" ++ 58 :: (32 :: encodeStr ct)).isEmpty =
      false := by
    rw [List.isEmpty_eq_false]
    simp
  have hparse2 : parseHeaderLine (encodeStr "content-type" ++ 58 ::
      (32 :: encodeStr ct)) =
      some (encodeStr "content-type", trimB ((32 : Nat) :: encodeStr ct)) := by
    rw [parseHeaderLine_split _ _ (by decide)]
    have hkey : toLowerB (trimB (encodeStr "content-type")) =
        encodeStr "content-type" := by decide
    rw [hkey]
  have hkeys : (encodeStr "content-disposition" == encodeStr "content-type") =
      false := by decide
  show readHeadersAux (cdFileLine n fn :: ctLine ct :: crlf :: body) [] = _
  rw [readHeadersAux]
  simp only [hline, hemp, Bool.false_eq_true, if_false, hparse]
  rw [readHeadersAux]
  simp only [hline2, hemp2, Bool.false_eq_true, if_false, hparse2]
  rw [readHeadersAux]
  simp only [stripEol_crlf_nil, List.isEmpty_nil, if_true]
  simp only [setAssoc, hkeys, Bool.false_eq_true, if_false]

theorem getAssoc_single_hit {β : Type} (k : Bytes) (v : β) :
    getAssoc [(k, v)] k = some v := by
  rw [getAssoc_cons]
  simp

theorem getAssoc_single_miss {β : Type} (k k2 : Bytes) (v : β)
    (h : (k == k2) = false) : getAssoc [(k, v)] k2 = none := by
  rw [getAssoc_cons, h]
  simp [getAssoc]

theorem getAssoc_pair_fst {β : Type} (k1 k2 : Bytes) (v1 v2 : β) :
    getAssoc [(k1, v1), (k2, v2)] k1 = some v1 := by
  rw [getAssoc_cons]
  simp

theorem getAssoc_pair_snd {β : Type} (k1 k2 : Bytes) (v1 v2 : β)
    (h : (k1 == k2) = false) : getAssoc [(k1, v1), (k2, v2)] k2 = some v2 := by
  rw [getAssoc_cons, h]
  simp [getAssoc_single_hit]

theorem jsTruthy_some (b : Bytes) (h : b ≠ []) : jsTruthy (some b) = true := by
  simp [jsTruthy, h]

theorem encode_dashdash (s : String) :
    encodeStr ("--" ++ s) = 45 :: 45 :: encodeStr s := by
  rw [encodeStr_append]
  have h : encodeStr "--" = [45, 45] := by decide
  rw [h]
  rfl

theorem skipLWSP_dash (b : Bytes) : skipLWSPChar (45 :: b) = 45 :: b := by
  simp [skipLWSPChar, List.dropWhile_cons]

theorem stripEol_partBoundLine (boundary : String) :
    stripEol (partBoundLine boundary) = encodeStr ("--" ++ boundary) := by
  rw [partBoundLine, show crlf = [13, 10] from rfl, stripEol_concat_crlf]

theorem stripEol_finalBoundLine (boundary : String) :
    stripEol (finalBoundLine boundary) = encodeStr ("--" ++ boundary ++ "--") := by
  rw [finalBoundLine, show crlf = [13, 10] from rfl, stripEol_concat_crlf]

theorem isEqual_self_dash (s : String) :
    isEqual (encodeStr ("--" ++ s)) (encodeStr ("--" ++ s)) = true := by
  rw [isEqual, encode_dashdash, skipLWSP_dash]
  simp

theorem final_eq_part_append (boundary : String) :
    encodeStr ("--" ++ boundary ++ "--") = encodeStr ("--" ++ boundary) ++ [45, 45] := by
  rw [encodeStr_append]
  have h : encodeStr "--" = [45, 45] := by decide
  rw [h]

theorem isEqual_part_final (boundary : String) :
    isEqual (encodeStr ("--" ++ boundary)) (encodeStr ("--" ++ boundary ++ "--")) =
      false := by
  rw [isEqual, encode_dashdash, skipLWSP_dash, ← encode_dashdash,
    final_eq_part_append]
  rw [beq_eq_false_iff_ne]
  intro h
  have := congrArg List.length h
  simp at this

theorem isEqual_final_part (boundary : String) :
    isEqual (encodeStr ("--" ++ boundary ++ "--")) (encodeStr ("--" ++ boundary)) =
      false := by
  rw [isEqual, final_eq_part_append, encode_dashdash]
  have h0 : (45 : Nat) :: 45 :: encodeStr boundary ++ [45, 45] =
      45 :: (45 :: encodeStr boundary ++ [45, 45]) := by simp
  rw [h0, skipLWSP_dash, ← h0, ← encode_dashdash, ← final_eq_part_append]
  rw [beq_eq_false_iff_ne]
  intro h
  have := congrArg List.length h
  rw [final_eq_part_append] at this
  simp at this

theorem isEqual_final_self (boundary : String) :
    isEqual (encodeStr ("--" ++ boundary ++ "--"))
      (encodeStr ("--" ++ boundary ++ "--")) = true := by
  rw [isEqual, final_eq_part_append, encode_dashdash]
  have h0 : (45 : Nat) :: 45 :: encodeStr boundary ++ [45, 45] =
      45 :: (45 :: encodeStr boundary ++ [45, 45]) := by simp
  rw [h0, skipLWSP_dash]
  simp

theorem partsLoopF_onePart (boundary : String) (env : Env) (opts : PartsOptions)
    (hpart : opts.part = encodeStr ("--" ++ boundary))
    (hfinal : opts.final = encodeStr ("--" ++ boundary ++ "--"))
    (hms : opts.maxSize ≠ 0) (p : PartSpec)
    (hsafe : safeSpec opts.part opts.final p)
    (hsize : partSizeOk opts.maxSize opts.maxFileSize p)
    (bl : Bytes) (rest2 : List Bytes) (fuel : Nat) (st : MState)
    (hb : isEqual (stripEol bl) opts.part = true ∨
      isEqual (stripEol bl) opts.final = true) :
    partsLoopF env opts (fuel + 1) (specLines p ++ bl :: rest2) st =
      (if isEqual (stripEol bl) opts.final then
        (⟨[expectedOf p], none, st⟩ : PartsOut)
      else
        ⟨expectedOf p :: (partsLoopF env opts fuel rest2 st).yielded,
          (partsLoopF env opts fuel rest2 st).err,
          (partsLoopF env opts fuel rest2 st).st⟩) := by
  cases p with
  | fld n v =>
    obtain ⟨hn, h13, hnb⟩ := hsafe
    have hinput : specLines (.fld n v) ++ bl :: rest2 =
        cdFieldLine n :: crlf ::
          (splitLines (encodeStr v ++ crlf) ++ bl :: rest2) := by
      simp [specLines]
    have hcd := readHeaders_fld n (splitLines (encodeStr v ++ crlf) ++ bl :: rest2)
    have hget_ct : getAssoc [(encodeStr "content-disposition",
        encodeStr "form-data; name=" ++ quoteB (encodeStr n))]
        (encodeStr "content-type") = none :=
      getAssoc_single_miss _ _ _ (by decide)
    have hget_cd : getAssoc [(encodeStr "content-disposition",
        encodeStr "form-data; name=" ++ quoteB (encodeStr n))]
        (encodeStr "content-disposition") =
        some (encodeStr "form-data; name=" ++ quoteB (encodeStr n)) :=
      getAssoc_single_hit _ _
    have htruthy : jsTruthy (some (encodeStr "form-data; name=" ++
        quoteB (encodeStr n))) = true := by
      refine jsTruthy_some _ ?_
      have h0 : encodeStr "form-data; name=" =
          102 :: encodeStr "orm-data; name=" := by decide
      rw [h0]
      simp
    have htake : toLowerB ((encodeStr "form-data; name=" ++
        quoteB (encodeStr n)).take 10) == encodeStr "form-data;" := by
      rw [List.take_append_of_le_length (by decide)]
      decide
    have hname := paramValue_name_fld (encodeStr n) hn
    have hfl := getFilename_fld (encodeStr n) hn
    have hrun := fieldPartLoop_run opts (decodeBytes (unquoteB (quoteB (encodeStr n))))
      bl rest2 st hb (splitLines (encodeStr v ++ crlf)) []
      (fun l hl => hnb l hl)
    have hvalue : String.intercalate "\n"
        (([] : List String) ++ (splitLines (encodeStr v ++ crlf)).map
          (fun l => decodeBytes (stripEol l))) = v := by
      have hmm : (splitLines (encodeStr v ++ crlf)).map
          (fun l => decodeBytes (stripEol l)) =
          ((splitLines (encodeStr v ++ crlf)).map stripEol).map decodeBytes := by
        rw [List.map_map]
        rfl
      rw [List.nil_append, hmm, intercalate_decode_joinLF,
        show crlf = [13, 10] from rfl,
        joinLF_stripEol_splitLines (encodeStr v) h13, decodeBytes_encodeStr]
    rw [hinput, partsLoopF, hcd]
    dsimp only
    rw [hget_ct, hget_cd]
    simp only [Option.getD_some, htruthy, htake, hname, eq_self_iff_true, not_true,
      if_false, Bool.false_eq_true]
    rw [hrun]
    simp only [unquoteB_quoteB (encodeStr n) (headerSafe_no92 _ hn),
      decodeBytes_encodeStr, hvalue]
    by_cases hfin : isEqual (stripEol bl) opts.final = true
    · simp only [hfin, if_true]
      rfl
    · rw [Bool.not_eq_true] at hfin
      simp only [hfin, Bool.false_eq_true, if_false]
      rfl
  | fil n fn ct c =>
    obtain ⟨hn, hfn, hct, hctne, hnb⟩ := hsafe
    obtain ⟨hs1, hs2⟩ := hsize
    have hinput : specLines (.fil n fn ct c) ++ bl :: rest2 =
        cdFileLine n fn :: ctLine ct :: crlf ::
          (splitLines (c ++ crlf) ++ bl :: rest2) := by
      simp [specLines]
    have hctv : trimB ((32 : Nat) :: encodeStr ct) = encodeStr ct := by
      rw [trimB_cons_ws 32 _ (by decide)]
      exact trimB_token _ hctne hct
    have hcd := readHeaders_fil n fn ct (splitLines (c ++ crlf) ++ bl :: rest2)
    rw [hctv] at hcd
    have hget_ct : getAssoc [(encodeStr "content-disposition",
        encodeStr "form-data; name=" ++ quoteB (encodeStr n) ++
          encodeStr "; filename=" ++ quoteB (encodeStr fn)),
        (encodeStr "content-type", encodeStr ct)] (encodeStr "content-type") =
        some (encodeStr ct) :=
      getAssoc_pair_snd _ _ _ _ (by decide)
    have hget_cd : getAssoc [(encodeStr "content-disposition",
        encodeStr "form-data; name=" ++ quoteB (encodeStr n) ++
          encodeStr "; filename=" ++ quoteB (encodeStr fn)),
        (encodeStr "content-type", encodeStr ct)] (encodeStr "content-disposition") =
        some (encodeStr "form-data; name=" ++ quoteB (encodeStr n) ++
          encodeStr "; filename=" ++ quoteB (encodeStr fn)) :=
      getAssoc_pair_fst _ _ _ _
    have htruthy : jsTruthy (some (encodeStr "form-data; name=" ++
        quoteB (encodeStr n) ++ encodeStr "; filename=" ++
        quoteB (encodeStr fn))) = true := by
      refine jsTruthy_some _ ?_
      have h0 : encodeStr "form-data; name=" =
          102 :: encodeStr "orm-data; name=" := by decide
      rw [h0]
      simp
    have htruthy2 : jsTruthy (some (encodeStr ct)) = true :=
      jsTruthy_some _ hctne
    have htake : toLowerB ((encodeStr "form-data; name=" ++ quoteB (encodeStr n) ++
        encodeStr "; filename=" ++ quoteB (encodeStr fn)).take 10) ==
        encodeStr "form-data;" := by
      have hassoc : encodeStr "form-data; name=" ++ quoteB (encodeStr n) ++
          encodeStr "; filename=" ++ quoteB (encodeStr fn) =
          encodeStr "form-data; name=" ++ (quoteB (encodeStr n) ++
            (encodeStr "; filename=" ++ quoteB (encodeStr fn))) := by
        simp [List.append_assoc]
      rw [hassoc, List.take_append_of_le_length (by decide)]
      decide
    have hname := paramValue_name_fil (encodeStr n) (encodeStr fn) hn hfn
    have hfl := getFilename_fil (encodeStr n) (encodeStr fn) hn hfn
    have hflat : (splitLines (c ++ crlf)).flatten.length = c.length + 2 := by
      rw [splitLines_flatten]
      simp [crlf]
    have hrun := filePartLoop_mem_yield env opts
      (decodeBytes (unquoteB (quoteB (encodeStr n)))) (decodeBytes (encodeStr ct))
      (some (decodeBytes (encodeStr fn))) bl rest2 hb
      (splitLines (c ++ crlf)) [] none st (fun l hl => hnb l hl)
      (by simp [hflat]; omega) (by simp [hflat]; omega)
    rw [hinput, partsLoopF, hcd]
    dsimp only
    rw [hget_ct, hget_cd]
    simp only [Option.getD_some, htruthy, htake, hname, eq_self_iff_true, not_true,
      if_false, htruthy2, if_true]
    rw [show fileInit env opts (decodeBytes (encodeStr ct)) st =
        .ok (some [], none, none, st) from by simp [fileInit, hms]]
    dsimp only
    simp only [hfl, Option.map_some']
    simp only [List.length_nil] at hrun
    rw [hrun]
    simp only [unquoteB_quoteB (encodeStr n) (headerSafe_no92 _ hn),
      decodeBytes_encodeStr, List.nil_append, splitLines_flatten]
    by_cases hfin : isEqual (stripEol bl) opts.final = true
    · simp only [hfin, if_true]
      rfl
    · rw [Bool.not_eq_true] at hfin
      simp only [hfin, Bool.false_eq_true, if_false]
      rfl

theorem partsLoopF_encodeRest (boundary : String) (env : Env) (opts : PartsOptions)
    (hpart : opts.part = encodeStr ("--" ++ boundary))
    (hfinal : opts.final = encodeStr ("--" ++ boundary ++ "--"))
    (hms : opts.maxSize ≠ 0) :
    ∀ (specs : List PartSpec), specs ≠ [] →
      (∀ p ∈ specs, safeSpec opts.part opts.final p) →
      (∀ p ∈ specs, partSizeOk opts.maxSize opts.maxFileSize p) →
      ∀ (fuel : Nat) (st : MState), (encodeRest boundary specs).length < fuel →
      partsLoopF env opts fuel (encodeRest boundary specs) st =
        ⟨specs.map expectedOf, none, st⟩ := by
  intro specs
  induction specs with
  | nil =>
    intro hne
    exact absurd rfl hne
  | cons p ps ih =>
    intro _ hsafe hsize fuel st hfuel
    obtain ⟨f, rfl⟩ : ∃ f, fuel = f + 1 := ⟨fuel - 1, by omega⟩
    have hbfin : isEqual (stripEol (finalBoundLine boundary)) opts.final = true := by
      rw [stripEol_finalBoundLine, hfinal, isEqual_final_self]
    have hbpart : isEqual (stripEol (partBoundLine boundary)) opts.part = true := by
      rw [stripEol_partBoundLine, hpart, isEqual_self_dash]
    have hbpf : isEqual (stripEol (partBoundLine boundary)) opts.final = false := by
      rw [stripEol_partBoundLine, hfinal, isEqual_part_final]
    cases ps with
    | nil =>
      rw [show encodeRest boundary [p] =
        specLines p ++ finalBoundLine boundary :: [] from rfl]
      rw [partsLoopF_onePart boundary env opts hpart hfinal hms p
        (hsafe p (by simp)) (hsize p (by simp)) _ _ f st (Or.inr hbfin)]
      simp only [hbfin, eq_self_iff_true, if_true]
      rfl
    | cons q ps2 =>
      rw [show encodeRest boundary (p :: q :: ps2) =
        specLines p ++ partBoundLine boundary :: encodeRest boundary (q :: ps2)
        from rfl]
      rw [partsLoopF_onePart boundary env opts hpart hfinal hms p
        (hsafe p (by simp)) (hsize p (by simp)) _ _ f st (Or.inl hbpart)]
      simp only [hbpf, Bool.false_eq_true, if_false]
      rw [show encodeRest boundary (p :: q :: ps2) =
        specLines p ++ partBoundLine boundary :: encodeRest boundary (q :: ps2)
        from rfl, List.length_append, List.length_cons] at hfuel
      rw [ih (by simp) (fun x hx => hsafe x (by simp [hx]))
        (fun x hx => hsize x (by simp [hx])) f st (by omega)]
      rfl

theorem readToStartOrEnd_final (boundary : String) :
    readToStartOrEnd [finalBoundLine boundary]
      (encodeStr ("--" ++ boundary)) (encodeStr ("--" ++ boundary ++ "--")) =
      .ok (false, []) := by
  rw [readToStartOrEnd]
  rw [stripEol_finalBoundLine, isEqual_final_part, isEqual_final_self]
  simp

theorem readToStartOrEnd_part (boundary : String) (rest : List Bytes) :
    readToStartOrEnd (partBoundLine boundary :: rest)
      (encodeStr ("--" ++ boundary)) (encodeStr ("--" ++ boundary ++ "--")) =
      .ok (true, rest) := by
  rw [readToStartOrEnd]
  rw [stripEol_partBoundLine, isEqual_self_dash]
  simp

/-- C8 (amended): streaming the output of the reference multipart encoder
with a fresh reader reproduces every part in order: names, field values and
filenames byte-for-byte, while each decoded file content equals the
original content with the end-of-line bytes that preceded the boundary line
appended.  Requires wire-safe parts (names and filenames of printable ASCII
free of the double quote, the semicolon and the backslash; media types
nonempty printable tokens; field values free of carriage-return bytes; no
payload line resembling a boundary line) and in-memory file handling
(maxSize set and the parts within both size limits). -/
theorem round_trip_reproduces_parts (boundary : String) (env : Env)
    (options : FormDataReadOptions) (fs : FileSys) (K : Nat) (specs : List PartSpec)
    (hms : options.maxSize = some K) (hK : K ≠ 0)
    (hsafe : ∀ p ∈ specs, safeSpec (encodeStr ("--" ++ boundary))
      (encodeStr ("--" ++ boundary ++ "--")) p)
    (hsize : ∀ p ∈ specs, partSizeOk K
      (options.maxFileSize.getD DEFAULT_MAX_FILE_SIZE) p) :
    FormDataReader.stream env
      ⟨encodeStr ("--" ++ boundary), encodeStr ("--" ++ boundary ++ "--"), false⟩
      options (encodeMultipart boundary specs) fs =
      ⟨specs.map expectedOf, none,
        ⟨encodeStr ("--" ++ boundary), encodeStr ("--" ++ boundary ++ "--"), true⟩,
        fs⟩ := by
  cases specs with
  | nil =>
    rw [FormDataReader.stream]
    dsimp only
    rw [show encodeMultipart boundary ([] : List PartSpec) =
      [finalBoundLine boundary] from rfl, readToStartOrEnd_final]
    rfl
  | cons s ss =>
    have hK2 : (toPartsOptions
        (⟨encodeStr ("--" ++ boundary), encodeStr ("--" ++ boundary ++ "--"), false⟩ :
          FormDataReader) options).maxSize = K := by
      simp [toPartsOptions, hms]
    have hmsne : (toPartsOptions
        (⟨encodeStr ("--" ++ boundary), encodeStr ("--" ++ boundary ++ "--"), false⟩ :
          FormDataReader) options).maxSize ≠ 0 := by
      rw [hK2]
      exact hK
    have hsize2 : ∀ p ∈ s :: ss, partSizeOk (toPartsOptions
        (⟨encodeStr ("--" ++ boundary), encodeStr ("--" ++ boundary ++ "--"), false⟩ :
          FormDataReader) options).maxSize (toPartsOptions
        (⟨encodeStr ("--" ++ boundary), encodeStr ("--" ++ boundary ++ "--"), false⟩ :
          FormDataReader) options).maxFileSize p := by
      intro p hp
      rw [hK2]
      exact hsize p hp
    rw [FormDataReader.stream]
    dsimp only
    rw [show encodeMultipart boundary (s :: ss) =
      partBoundLine boundary :: encodeRest boundary (s :: ss) from rfl,
      readToStartOrEnd_part]
    dsimp only
    rw [partsRun, partsLoop]
    rw [partsLoopF_encodeRest boundary env (toPartsOptions
        (⟨encodeStr ("--" ++ boundary), encodeStr ("--" ++ boundary ++ "--"), false⟩ :
          FormDataReader) options) rfl rfl hmsne (s :: ss) (by simp) hsafe hsize2
      _ _ (Nat.lt_succ_self _)]
    rfl

/-- C8 witness: a concrete round trip through encoder and decoder. -/
theorem round_trip_reproduces_parts_witness :
    FormDataReader.stream exEnv
      ⟨encodeStr ("--" ++ "B"), encodeStr ("--" ++ "B" ++ "--"), false⟩
      { maxSize := some 100 } (encodeMultipart "B" exSpecs) ⟨[]⟩ =
      ⟨exSpecs.map expectedOf, none,
        ⟨encodeStr ("--" ++ "B"), encodeStr ("--" ++ "B" ++ "--"), true⟩, ⟨[]⟩⟩ :=
  round_trip_reproduces_parts "B" exEnv { maxSize := some 100 } ⟨[]⟩ 100 exSpecs
    rfl (by decide) (by decide) (by decide)

/-- C8 counterexample: the round trip is not byte-exact on file contents;
decoding the encoding of a one-byte file yields that byte followed by the
two end-of-line bytes of the line that preceded the boundary. -/
theorem round_trip_not_byte_exact :
    (FormDataReader.stream exEnv
        ⟨encodeStr ("--" ++ "B"), encodeStr ("--" ++ "B" ++ "--"), false⟩
        { maxSize := some 100 }
        (encodeMultipart "B" [.fil "f" "orig.txt" "text/plain" (encodeStr "x")])
        ⟨[]⟩).yielded =
      [("f", .file ⟨some (encodeStr "x" ++ crlf), "text/plain", none, "f",
        some "orig.txt"⟩)] ∧
    encodeStr "x" ++ crlf ≠ encodeStr "x" := by
  constructor
  · rfl
  · decide

end Oak
